import Mathlib

/-!
Verification of the ATL06 granule reader (icesat2_toolkit/io/ATL06.py).

The HDF5 container is modelled as a tree of groups and datasets; Python
dictionaries are modelled as association lists with insert-or-replace
semantics (preserving insertion order, as Python dicts do); code that can
raise an exception is modelled as an `Option`-valued function, `none`
standing for an uncaught exception propagating to the caller.
-/

namespace ATL06

/-- An HDF5 object: a dataset holding a numeric array, or a group holding
named children; both carry named attributes (attribute values modelled
as strings). -/
inductive H5Node where
  | dataset (data : List Int) (atts : List (String × String))
  | group (children : List (String × H5Node)) (atts : List (String × String))

/-- Lookup of a named child in a member list (h5py `group[name]`,
`KeyError` modelled as `none`). -/
def lookupChild : List (String × H5Node) → String → Option H5Node
  | [], _ => none
  | (k, n) :: rest, key => if k = key then some n else lookupChild rest key

/-- Indexing a node by name: groups look up the child, indexing a dataset
by a string is an error. -/
def H5Node.get : H5Node → String → Option H5Node
  | .dataset _ _, _ => none
  | .group cs _, key => lookupChild cs key

/-- Attributes of a node (`node.attrs` in h5py). -/
def H5Node.atts : H5Node → List (String × String)
  | .dataset _ a => a
  | .group _ a => a

/-- Whether a node is a group (`isinstance(val, h5py.Group)`). -/
def H5Node.isGroupB : H5Node → Bool
  | .dataset _ _ => false
  | .group _ _ => true

/-- Enumerating a node's members (`.items()`); datasets have none and
iterating them is an error. -/
def groupItems : H5Node → Option (List (String × H5Node))
  | .dataset _ _ => none
  | .group cs _ => some cs

/-- An HDF5 file: the members of the root group, in enumeration order,
plus the global (root-group) attributes. -/
structure H5File where
  entries : List (String × H5Node)
  fattrs : List (String × String)

/-- Top-level lookup (`fileID[name]`). -/
def H5File.get (f : H5File) (key : String) : Option H5Node :=
  lookupChild f.entries key

/-- A Python value stored in the output mappings: a numeric array, an
attribute value string, or a nested dictionary. -/
inductive PyVal where
  | arr (data : List Int)
  | str (s : String)
  | dict (entries : List (String × PyVal))

/-- A Python dictionary with string keys. -/
abbrev Dict := List (String × PyVal)

/-- Dictionary lookup (`d[k]`, `none` = `KeyError`). -/
def dfind : Dict → String → Option PyVal
  | [], _ => none
  | (k, v) :: rest, key => if k = key then some v else dfind rest key

/-- Dictionary assignment `d[k] = v`: replaces in place if the key is
present, appends otherwise (Python dict insertion-order semantics). -/
def dinsert : Dict → String → PyVal → Dict
  | [], key, v => [(key, v)]
  | (k, w) :: rest, key, v =>
      if k = key then (key, v) :: rest else (k, w) :: dinsert rest key v

/-- Walk a nested dictionary value along a path of keys. -/
def getPath : PyVal → List String → Option PyVal
  | v, [] => some v
  | .dict d, k :: p =>
      match dfind d k with
      | some v => getPath v p
      | none => none
  | .arr _, _ :: _ => none
  | .str _, _ :: _ => none

/-- The three reserved housekeeping attribute names dropped everywhere. -/
def reservedNames : List String := ["DIMENSION_LIST", "CLASS", "NAME"]

/-- Copy a list of attributes into a dictionary, skipping the reserved
names (`if att_name not in ('DIMENSION_LIST','CLASS','NAME')`). -/
def copyAttrs : Dict → List (String × String) → Dict
  | d, [] => d
  | d, (n, v) :: rest =>
      if n ∈ reservedNames then copyAttrs d rest
      else copyAttrs (dinsert d n (.str v)) rest

/-- Reading a node fully into memory (`val[:]`): datasets give their
array, slicing a group is an error. -/
def readArr : H5Node → Option PyVal
  | .dataset data _ => some (.arr data)
  | .group _ _ => none

/-- Copy every member as a full array (`d[key] = val[:]` over items);
a group member makes the slice fail. -/
def copyLeaves : Dict → List (String × H5Node) → Option Dict
  | d, [] => some d
  | d, (k, n) :: rest =>
      match readArr n with
      | some v => copyLeaves (dinsert d k v) rest
      | none => none

/-- Copy members with one level of flattening into pre-created subgroup
dictionaries: datasets become arrays, groups have their members copied
into the existing dictionary at that key (`KeyError`/`TypeError` when the
key is missing or not a dictionary). -/
def copyGrouped : Dict → List (String × H5Node) → Option Dict
  | d, [] => some d
  | d, (key, .dataset data _) :: rest =>
      copyGrouped (dinsert d key (.arr data)) rest
  | d, (key, .group sub _) :: rest =>
      match dfind d key with
      | some (.dict inner) =>
          match copyLeaves inner sub with
          | some inner2 => copyGrouped (dinsert d key (.dict inner2)) rest
          | none => none
      | _ => none

/-- Copy members for `quality_assessment`: datasets become arrays, each
group gets a fresh dictionary filled with its members' arrays. -/
def copyQA : Dict → List (String × H5Node) → Option Dict
  | d, [] => some d
  | d, (key, .dataset data _) :: rest =>
      copyQA (dinsert d key (.arr data)) rest
  | d, (key, .group sub _) :: rest =>
      match copyLeaves [] sub with
      | some inner => copyQA (dinsert d key (.dict inner)) rest
      | none => none

/-- Children of a group member each get a fresh dictionary of their own
filtered attributes. -/
def childAttrDicts : Dict → List (String × H5Node) → Dict
  | b, [] => b
  | b, (k, n) :: rest => childAttrDicts (dinsert b k (.dict (copyAttrs [] n.atts))) rest

/-- The per-member attribute dictionary: the member's own filtered
attributes, then (for groups) one nested dictionary per child. -/
def attrEntry (n : H5Node) : Dict :=
  match n with
  | .dataset _ a => copyAttrs [] a
  | .group sub a => childAttrDicts (copyAttrs [] a) sub

/-- Attribute copy without a group branch (used for `residual_histogram`
and `orbit_info` attributes). -/
def copyAttrsFlat : Dict → List (String × H5Node) → Dict
  | d, [] => d
  | d, (k, n) :: rest => copyAttrsFlat (dinsert d k (.dict (copyAttrs [] n.atts))) rest

/-- Attribute copy with the group branch (used for `segment_quality` and
`quality_assessment` attributes). -/
def copyAttrsGrouped : Dict → List (String × H5Node) → Dict
  | d, [] => d
  | d, (k, n) :: rest => copyAttrsGrouped (dinsert d k (.dict (attrEntry n))) rest

/-- `re.match(r'gt\d[lr]', k)`: the name starts with `g`, `t`, a digit,
and one of the two position letters. -/
def matchesBeam (k : String) : Bool :=
  match k.data with
  | c1 :: c2 :: c3 :: c4 :: _ =>
      c1 = 'g' && c2 = 't' && c3.isDigit && (c4 = 'l' || c4 = 'r')
  | _ => false

/-- The probe `fileID[gtx]['land_ice_segments']['segment_id']` succeeds. -/
def hasLandIce (f : H5File) (gtx : String) : Bool :=
  (((f.get gtx).bind (fun n => n.get "land_ice_segments")).bind
    (fun n => n.get "segment_id")).isSome

/-- The discovery loop: probe each candidate, appending it when the probe
succeeds and silently skipping it on `KeyError`. -/
def beamProbeLoop (f : H5File) : List String → List String
  | [] => []
  | gtx :: rest =>
      if hasLandIce f gtx then gtx :: beamProbeLoop f rest
      else beamProbeLoop f rest

/-- `find_beams` (pure core): scan top-level names matching the beam
pattern and keep those whose probe succeeds, in enumeration order. -/
def find_beams (f : H5File) : List String :=
  beamProbeLoop f ((f.entries.map Prod.fst).filter (fun k => matchesBeam k))

/-- The members of `fileID[gtx]['land_ice_segments']`. -/
def lisItems (f : H5File) (gtx : String) : Option (List (String × H5Node)) :=
  ((f.get gtx).bind (fun n => n.get "land_ice_segments")).bind groupItems

/-- The five fixed `land_ice_segments` subgroup names, in creation order. -/
def fiveNames : List String :=
  ["bias_correction", "dem", "fit_statistics", "geophysical", "ground_track"]

/-- The pre-created `land_ice_segments` dictionary: the five fixed
subgroups, each an empty dictionary. -/
def initLIS : Dict :=
  [("bias_correction", .dict []), ("dem", .dict []), ("fit_statistics", .dict []),
   ("geophysical", .dict []), ("ground_track", .dict [])]

/-- The variables dictionary built for one beam in `read_granule`
(lines 107-138): `land_ice_segments` always, `residual_histogram` and
`segment_quality` when their flags are set. -/
def buildBeamVars (f : H5File) (gtx : String) (HISTOGRAM QUALITY : Bool) :
    Option Dict := do
  let litems ← lisItems f gtx
  let lis ← copyGrouped initLIS litems
  let bd : Dict := [("land_ice_segments", PyVal.dict lis)]
  let bd ← if HISTOGRAM then do
      let ritems ← ((f.get gtx).bind (fun n => n.get "residual_histogram")).bind groupItems
      let rh ← copyLeaves [] ritems
      pure (dinsert bd "residual_histogram" (PyVal.dict rh))
    else pure bd
  let bd ← if QUALITY then do
      let qitems ← ((f.get gtx).bind (fun n => n.get "segment_quality")).bind groupItems
      let sq ← copyGrouped [("signal_selection_status", PyVal.dict [])] qitems
      pure (dinsert bd "segment_quality" (PyVal.dict sq))
    else pure bd
  pure bd

/-- Coerce a looked-up value to a dictionary; anything else is a
`TypeError` on item assignment. -/
def asDict : Option PyVal → Option Dict
  | some (PyVal.dict d) => some d
  | _ => none

/-- The attribute loop over `land_ice_segments` members: each iteration
re-reads `attrs[gtx]['land_ice_segments']` (which a beam-level attribute
may have clobbered with a non-dictionary, raising `TypeError`) and stores
that member's attribute dictionary under its name. -/
def lisAttrLoop : Dict → List (String × H5Node) → Option Dict
  | g, [] => some g
  | g, (k, n) :: rest => do
      let cur ← asDict (dfind g "land_ice_segments")
      lisAttrLoop
        (dinsert g "land_ice_segments"
          (PyVal.dict (dinsert cur k (PyVal.dict (attrEntry n))))) rest

/-- The attributes dictionary built for one beam (lines 141-189 of
`read_granule`, lines 389-412 of `read_beam` with both flags off). -/
def buildBeamAttrs (f : H5File) (gtx : String) (HISTOGRAM QUALITY : Bool) :
    Option Dict := do
  let node ← f.get gtx
  let g := copyAttrs [("land_ice_segments", PyVal.dict initLIS)] node.atts
  let litems ← (node.get "land_ice_segments").bind groupItems
  let g ← lisAttrLoop g litems
  let g ← if HISTOGRAM then do
      let ritems ← (node.get "residual_histogram").bind groupItems
      pure (dinsert g "residual_histogram" (PyVal.dict (copyAttrsFlat [] ritems)))
    else pure g
  let g ← if QUALITY then do
      let qitems ← (node.get "segment_quality").bind groupItems
      pure (dinsert g "segment_quality"
        (PyVal.dict (copyAttrsGrouped [("signal_selection_status", PyVal.dict [])] qitems)))
    else pure g
  pure g

/-- The per-beam loop of `read_granule`: variables, then (when requested)
attributes, for each discovered beam in order. -/
def beamsLoop (f : H5File) (A H Q : Bool) :
    List String → Dict → Dict → Option (Dict × Dict)
  | [], mds, ats => some (mds, ats)
  | gtx :: rest, mds, ats => do
      let bd ← buildBeamVars f gtx H Q
      let ats2 ← if A then do
          let ba ← buildBeamAttrs f gtx H Q
          pure (dinsert ats gtx (PyVal.dict ba))
        else pure ats
      beamsLoop f A H Q rest (dinsert mds gtx (PyVal.dict bd)) ats2

/-- The 21 hard-coded `ancillary_data` keys, in source order. -/
def ancillary_keys : List String :=
  ["atlas_sdp_gps_epoch", "data_end_utc", "data_start_utc",
   "end_cycle", "end_geoseg", "end_gpssow", "end_gpsweek", "end_orbit",
   "end_region", "end_rgt", "granule_end_utc", "granule_start_utc", "release",
   "start_cycle", "start_geoseg", "start_gpssow", "start_gpsweek",
   "start_orbit", "start_region", "start_rgt", "version"]

/-- `fileID['ancillary_data'][key]`. -/
def ancLookup (f : H5File) (key : String) : Option H5Node :=
  (f.get "ancillary_data").bind (fun n => n.get key)

/-- The unconditional loop over the hard-coded ancillary keys: each is
read fully (`KeyError` on absence), attributes captured when requested. -/
def ancLoop (f : H5File) (A : Bool) :
    List String → Dict → Dict → Option (Dict × Dict)
  | [], ad, adA => some (ad, adA)
  | key :: rest, ad, adA => do
      let node ← ancLookup f key
      let v ← readArr node
      ancLoop f A rest (dinsert ad key v)
        (if A then dinsert adA key (.dict (copyAttrs [] node.atts)) else adA)

/-- The `ancillary_data/land_ice` loop: every member read as an array,
attributes captured when requested. -/
def liLoop (A : Bool) :
    List (String × H5Node) → Dict → Dict → Option (Dict × Dict)
  | [], li, liA => some (li, liA)
  | (k, n) :: rest, li, liA => do
      let v ← readArr n
      liLoop A rest (dinsert li k v)
        (if A then dinsert liA k (.dict (copyAttrs [] n.atts)) else liA)

/-- The global-attribute loop (lines 246-248): each non-reserved global
attribute is stored at the root with its own NAME as the value (the
output-construction quirk in the source). -/
def globalAttrLoop : Dict → List (String × String) → Dict
  | d, [] => d
  | d, (n, _) :: rest =>
      if n ∈ reservedNames then globalAttrLoop d rest
      else globalAttrLoop (dinsert d n (PyVal.str n)) rest

/-- `read_granule` (pure core, the file already open): beam discovery,
per-beam copy, `orbit_info`, `quality_assessment`, `ancillary_data` with
its `land_ice` subgroup, then global/orbit/quality attributes when
requested.  Returns the variables mapping, the attributes mapping and the
beam list; `none` models an uncaught exception. -/
def read_granule (f : H5File) (ATTRIBUTES HISTOGRAM QUALITY : Bool) :
    Option (Dict × Dict × List String) := do
  let beams := find_beams f
  let (mds, ats) ← beamsLoop f ATTRIBUTES HISTOGRAM QUALITY beams [] []
  let oitems ← (f.get "orbit_info").bind groupItems
  let oi ← copyLeaves [] oitems
  let mds := dinsert mds "orbit_info" (PyVal.dict oi)
  let qitems ← (f.get "quality_assessment").bind groupItems
  let qa ← copyQA [] qitems
  let mds := dinsert mds "quality_assessment" (PyVal.dict qa)
  let (ad, adA) ← ancLoop f ATTRIBUTES ancillary_keys [] []
  let laItems ← ((f.get "ancillary_data").bind (fun n => n.get "land_ice")).bind groupItems
  let (li, liA) ← liLoop ATTRIBUTES laItems [] []
  let mds := dinsert mds "ancillary_data" (PyVal.dict (dinsert ad "land_ice" (PyVal.dict li)))
  let ats := dinsert ats "ancillary_data" (PyVal.dict (dinsert adA "land_ice" (PyVal.dict liA)))
  let ats := if ATTRIBUTES then
      let g := globalAttrLoop ats f.fattrs
      let g := dinsert g "orbit_info" (PyVal.dict (copyAttrsFlat [] oitems))
      dinsert g "quality_assessment" (PyVal.dict (copyAttrsGrouped [] qitems))
    else ats
  pure (mds, ats, beams)

/-- `read_beam` (pure core): copies a single beam's `land_ice_segments`
with no existence pre-check and no histogram/quality handling; the
`HISTOGRAM` and `QUALITY` arguments model keyword arguments the function
accepts but never reads. -/
def read_beam (f : H5File) (gtx : String) (ATTRIBUTES HISTOGRAM QUALITY : Bool) :
    Option (Dict × Dict) := do
  let litems ← lisItems f gtx
  let lis ← copyGrouped initLIS litems
  let mds : Dict := [(gtx, PyVal.dict [("land_ice_segments", PyVal.dict lis)])]
  let ats ← if ATTRIBUTES then do
      let ba ← buildBeamAttrs f gtx false false
      pure ([(gtx, PyVal.dict ba)] : Dict)
    else pure ([] : Dict)
  pure (mds, ats)

/-- An open-or-closed handle on a file, for the close/keep contract. -/
structure Handle where
  file : H5File
  isOpen : Bool

/-- Stateful `read_granule`: fails on a closed handle; on success the
handle is closed unless `KEEP`; an exception propagates before the close
statement is reached, leaving the handle as it was. -/
def read_granuleOp (h : Handle) (A H Q KEEP : Bool) :
    Option (Dict × Dict × List String) × Handle :=
  if h.isOpen then
    match read_granule h.file A H Q with
    | some r => (some r, ⟨h.file, KEEP⟩)
    | none => (none, h)
  else (none, h)

/-- Stateful `find_beams`: fails on a closed handle; never fails on
content (the probe is wrapped in try/except); closes unless `KEEP`. -/
def find_beamsOp (h : Handle) (KEEP : Bool) : Option (List String) × Handle :=
  if h.isOpen then (some (find_beams h.file), ⟨h.file, KEEP⟩) else (none, h)

/-- Stateful `read_beam`: fails on a closed handle; closes unless `KEEP`;
an exception propagates before the close statement is reached. -/
def read_beamOp (h : Handle) (gtx : String) (A H Q KEEP : Bool) :
    Option (Dict × Dict) × Handle :=
  if h.isOpen then
    match read_beam h.file gtx A H Q with
    | some r => (some r, ⟨h.file, KEEP⟩)
    | none => (none, h)
  else (none, h)

/-! Specification-side definitions, following the wording of the spec. -/

/-- The names enumerated at the top level of the container. -/
def topLevelNames (f : H5File) : List String :=
  f.entries.map Prod.fst

/-- Modelled from the spec: a beam identifier is valid when its name
matches the fixed pattern and the file contains the required nested
field `land_ice_segments/segment_id` under it. -/
def isValidBeam (f : H5File) (k : String) : Bool :=
  matchesBeam k && hasLandIce f k

/-- Whether a stored value is a nested dictionary (a subgroup). -/
def PyVal.isDictB : PyVal → Bool
  | .dict _ => true
  | _ => false

/-- The names of the subgroup (dictionary-valued) entries of a
dictionary, in order. -/
def subgroupNames (d : Dict) : List String :=
  (d.filter (fun p => p.2.isDictB)).map Prod.fst

/-- The keys of a beam's entry in a variables mapping, when that entry is
a dictionary. -/
def beamRootKeys (m : Dict) (gtx : String) : Option (List String) :=
  match dfind m gtx with
  | some (.dict bd) => some (bd.map Prod.fst)
  | _ => none

/-- The key list of the `ancillary_data` entry of a variables mapping,
when that entry is a dictionary. -/
def ancKeysOf (m : Dict) : Option (List String) :=
  match dfind m "ancillary_data" with
  | some (.dict ad) => some (ad.map Prod.fst)
  | _ => none

/-- The `land_ice_segments` dictionary of a beam's entry in a variables
mapping. -/
def lisOf (m : Dict) (gtx : String) : Option Dict :=
  match dfind m gtx with
  | some (.dict bd) =>
      match dfind bd "land_ice_segments" with
      | some (.dict l) => some l
      | _ => none
  | _ => none

/-- Count of populated (non-dictionary) entries in an attributes value. -/
def attrLeafCount : PyVal → Nat
  | .arr _ => 1
  | .str _ => 1
  | .dict d => dictLeafCount d
where
  /-- Count of populated entries below a dictionary. -/
  dictLeafCount : Dict → Nat
    | [] => 0
    | (_, v) :: rest => attrLeafCount v + dictLeafCount rest

/-- A per-beam well-formedness fact used for claim C3: within
`land_ice_segments`, any member bearing one of the five fixed subgroup
names is itself a group (true of every conforming ATL06 file). -/
def lisWFat (f : H5File) (gtx : String) : Bool :=
  match lisItems f gtx with
  | some l => l.all (fun p => !(decide (p.1 ∈ fiveNames)) || p.2.isGroupB)
  | none => true

/-- Duplicate-freedom of a name list (HDF5 groups cannot repeat member
names). -/
def nodupB : List String → Bool
  | [] => true
  | k :: rest => !(decide (k ∈ rest)) && nodupB rest

/-- A per-beam well-formedness fact used for claim C6: the member names
of `land_ice_segments` are pairwise distinct. -/
def beamWF6 (f : H5File) (gtx : String) : Bool :=
  match lisItems f gtx with
  | some l => nodupB (l.map Prod.fst)
  | none => true

/-- A whole-file well-formedness fact used for claim C6: no global
attribute is named like a beam or like `ancillary_data` (true of every
conforming ATL06 file, whose global attributes are product metadata). -/
def globalAttrsWF (f : H5File) : Bool :=
  f.fattrs.all (fun p => !(matchesBeam p.1) && !(decide (p.1 = "ancillary_data")))

/-- The spec-level mirror relation: every path present in the first value
is present in the second. -/
def Mirrors (v w : PyVal) : Prop :=
  ∀ p, (getPath v p).isSome = true → (getPath w p).isSome = true

/-- The spec-level cleanliness property: no string-valued (attribute)
entry at any path bears a reserved housekeeping name. -/
def CleanP (v : PyVal) : Prop :=
  ∀ p n s, getPath v (p ++ [n]) = some (.str s) → n ∉ reservedNames

/-- Entrywise mirror relation between two dictionaries. -/
def REnt (d e : Dict) : Prop :=
  ∀ k v, dfind d k = some v → ∃ w, dfind e k = some w ∧ Mirrors v w

/-- Entrywise cleanliness of a dictionary. -/
def CleanD (d : Dict) : Prop :=
  ∀ k v, dfind d k = some v → CleanP v ∧ ∀ s, v = PyVal.str s → k ∉ reservedNames

/-- Whether an attributes mapping stores, under the name `n`, the string
`n` itself (the recorded form of the global-attribute quirk). -/
def storedAsOwnName (ats : Dict) (n : String) : Bool :=
  match dfind ats n with
  | some (PyVal.str s) => s == n
  | _ => false

/-- Whether a value is the empty dictionary. -/
def PyVal.isEmptyDictB : PyVal → Bool
  | .dict [] => true
  | _ => false

/-! Concrete sample files used to witness the theorems. -/

/-- A dataset with no attributes. -/
def mkDS (l : List Int) : H5Node := .dataset l []

/-- A conforming sample file: one valid beam `gt1l` (with a dataset and a
populated `dem` subgroup), one pattern-matching but subsetted candidate
`gt2l`, one non-matching name `gt9z`, the mandatory top-level groups, and
two global attributes (one reserved). -/
def sampleFile : H5File :=
  { entries :=
      [("gt1l", .group
          [("land_ice_segments", .group
              [("segment_id", .dataset [1, 2] [("units", "1"), ("CLASS", "x")]),
               ("dem", .group [("dem_h", mkDS [5])] [("description", "dem grp")])]
              [])]
          [("atlas_beam_type", "strong")]),
       ("gt2l", .group [] []),
       ("gt9z", .group [("land_ice_segments", .group [("segment_id", mkDS [3])] [])] []),
       ("orbit_info", .group [("sc_orient", .dataset [0] [("units", "1")])] []),
       ("quality_assessment", .group
          [("qa_granule_pass_fail", mkDS [0]),
           ("gt1l", .group [("delta_time", mkDS [7])] [])] []),
       ("ancillary_data", .group
          (ancillary_keys.map (fun k => (k, mkDS [0])) ++
            [("land_ice", .group [("dh_fit_dx", mkDS [3])] [])])
          [])],
    fattrs := [("short_name", "ATL06"), ("NAME", "housekeeping")] }

/-- The successful `read_granule` result on the sample file with all
flags off. -/
def sampleGranule : Dict × Dict × List String :=
  (read_granule sampleFile false false false).getD ([], [], [])

/-- The successful `read_granule` result on the sample file with
`ATTRIBUTES=True`. -/
def sampleGranuleA : Dict × Dict × List String :=
  (read_granule sampleFile true false false).getD ([], [], [])

/-- A file whose only peculiarity is a global attribute named
`orbit_info`, used to refute claim C5 as stated. -/
def quirkFile : H5File :=
  { entries := sampleFile.entries, fattrs := [("orbit_info", "some value")] }

/-- A file in which `gt1l` has a `land_ice_segments` group lacking
`segment_id`: invalid for discovery, yet readable by `read_beam`. -/
def noSegFile : H5File :=
  { entries := [("gt1l", .group [("land_ice_segments", .group [("h_li", mkDS [4])] [])] [])],
    fattrs := [] }

/-- The empty container. -/
def emptyFile : H5File := { entries := [], fattrs := [] }

/-! ## Basic dictionary lemmas -/

theorem dfind_dinsert_self (d : Dict) (k : String) (v : PyVal) :
    dfind (dinsert d k v) k = some v := by
  induction d with
  | nil => simp [dinsert, dfind]
  | cons hd tl ih =>
      obtain ⟨k1, w⟩ := hd
      by_cases h : k1 = k
      · simp [dinsert, dfind, h]
      · simp [dinsert, dfind, h, ih]

theorem dfind_dinsert_ne (d : Dict) (k1 k : String) (v : PyVal) (h : k1 ≠ k) :
    dfind (dinsert d k1 v) k = dfind d k := by
  induction d with
  | nil => simp [dinsert, dfind, h]
  | cons hd tl ih =>
      obtain ⟨k2, w⟩ := hd
      by_cases h2 : k2 = k1
      · subst h2; simp [dinsert, dfind, h]
      · by_cases h3 : k2 = k
        · simp [dinsert, dfind, h2, h3, Ne.symm h]
        · simp [dinsert, dfind, h2, h3, ih]

theorem dfind_mem (d : Dict) (k : String) (v : PyVal) (h : dfind d k = some v) :
    (k, v) ∈ d := by
  induction d with
  | nil => simp [dfind] at h
  | cons hd tl ih =>
      obtain ⟨k1, w⟩ := hd
      by_cases h1 : k1 = k
      · subst h1
        simp [dfind] at h
        simp [h]
      · simp [dfind, h1] at h
        exact List.mem_cons_of_mem _ (ih h)

theorem dfind_nil (k : String) : dfind [] k = none := rfl

/-! ## Beam discovery (claim C1) -/

theorem beamProbeLoop_eq_filter (f : H5File) (l : List String) :
    beamProbeLoop f l = l.filter (fun k => hasLandIce f k) := by
  induction l with
  | nil => rfl
  | cons k rest ih =>
      by_cases h : hasLandIce f k
      · simp [beamProbeLoop, h, List.filter_cons, ih]
      · simp [beamProbeLoop, h, List.filter_cons, ih]

/-- Claim C1: for every file, `find_beams` returns exactly the top-level
names that are valid beams (name matching the fixed pattern and
containing `land_ice_segments/segment_id`), in the order the container
enumerated them, excluding every invalid or subsetted candidate. -/
theorem find_beams_exact (f : H5File) :
    find_beams f = (topLevelNames f).filter (fun k => isValidBeam f k) ∧
    ∀ k, k ∈ find_beams f ↔ k ∈ topLevelNames f ∧ isValidBeam f k = true := by
  have h1 : find_beams f = (topLevelNames f).filter (fun k => isValidBeam f k) := by
    unfold find_beams topLevelNames
    rw [beamProbeLoop_eq_filter, List.filter_filter]
    apply List.filter_congr
    intro k _
    simp [isValidBeam, Bool.and_comm]
  refine ⟨h1, fun k => ?_⟩
  rw [h1]
  simp [List.mem_filter]

theorem mem_find_beams_matches (f : H5File) (gtx : String)
    (h : gtx ∈ find_beams f) : matchesBeam gtx = true := by
  have h2 := ((find_beams_exact f).2 gtx).1 h
  have h3 := h2.2
  unfold isValidBeam at h3
  simp only [Bool.and_eq_true] at h3
  exact h3.1

theorem mem_find_beams_hasLandIce (f : H5File) (gtx : String)
    (h : gtx ∈ find_beams f) : hasLandIce f gtx = true := by
  have h2 := ((find_beams_exact f).2 gtx).1 h
  have h3 := h2.2
  unfold isValidBeam at h3
  simp only [Bool.and_eq_true] at h3
  exact h3.2

theorem hasLandIce_lisItems (f : H5File) (gtx : String)
    (h : hasLandIce f gtx = true) :
    ∃ litems, lisItems f gtx = some litems ∧ litems ≠ [] := by
  unfold hasLandIce at h
  unfold lisItems
  cases hm : (f.get gtx).bind (fun n => n.get "land_ice_segments") with
  | none => rw [hm] at h; simp at h
  | some m =>
      rw [hm] at h
      cases m with
      | dataset data a => simp [H5Node.get, Option.bind] at h
      | group cs a =>
          refine ⟨cs, by simp [Option.bind, groupItems], ?_⟩
          intro hnil
          subst hnil
          simp [H5Node.get, Option.bind, lookupChild] at h

/-! ## Single-beam reader (claims C9, C8) -/

/-- Claim C9: `read_beam` ignores the `HISTOGRAM` and `QUALITY` keyword
options entirely, and on success its variables mapping holds the one
requested beam with only the `land_ice_segments` group beneath it (never
`residual_histogram` or `segment_quality`). -/
theorem read_beam_only_land_ice (f : H5File) (gtx : String) (A H1 Q1 H2 Q2 : Bool) :
    read_beam f gtx A H1 Q1 = read_beam f gtx A H2 Q2 ∧
    ∀ r, read_beam f gtx A H1 Q1 = some r →
      ∃ lis, r.1 = [(gtx, PyVal.dict [("land_ice_segments", PyVal.dict lis)])] := by
  refine ⟨rfl, ?_⟩
  intro r hr
  unfold read_beam at hr
  cases h1 : lisItems f gtx with
  | none => simp [h1] at hr
  | some litems =>
      simp only [h1, Option.bind_eq_bind, Option.some_bind] at hr
      cases h2 : copyGrouped initLIS litems with
      | none => simp [h2] at hr
      | some lis =>
          simp only [h2, Option.bind_eq_bind, Option.some_bind] at hr
          refine ⟨lis, ?_⟩
          cases A with
          | false =>
              simp only [Bool.false_eq_true, if_false, pure, Option.bind_eq_bind,
                Option.some_bind] at hr
              cases hr
              rfl
          | true =>
              simp only [if_true] at hr
              cases h3 : buildBeamAttrs f gtx false false with
              | none => simp [h3] at hr
              | some ba =>
                  simp only [h3, Option.bind_eq_bind, Option.some_bind, pure] at hr
                  cases hr
                  rfl

/-- Witness for claim C9 at a concrete file and beam. -/
theorem read_beam_only_land_ice_witness :
    read_beam sampleFile "gt1l" false true true = read_beam sampleFile "gt1l" false false false ∧
    ∃ lis, ((read_beam sampleFile "gt1l" false true true).getD ([], [])).1 =
      [("gt1l", PyVal.dict [("land_ice_segments", PyVal.dict lis)])] := by
  refine ⟨(read_beam_only_land_ice sampleFile "gt1l" false true true false false).1, ?_⟩
  obtain ⟨lis, hl⟩ := (read_beam_only_land_ice sampleFile "gt1l" false true true false false).2
    ((read_beam sampleFile "gt1l" false true true).getD ([], [])) (by rfl)
  exact ⟨lis, hl⟩

/-- Counterexample to claim C8 as stated: in this file `gt1l` lacks the
required `land_ice_segments/segment_id` field (so it is invalid and
excluded from discovery), yet `read_beam` reads it without error. -/
theorem read_beam_no_validity_check_cex :
    "gt1l" ∉ find_beams noSegFile ∧
    (read_beam noSegFile "gt1l" false false false).isSome = true := by
  exact ⟨by decide, rfl⟩

/-- Claim C8 (amended): when the beam group itself, or its
`land_ice_segments` subgroup, is absent (or not a group), `read_beam`
propagates the absent-field error from the traversal — there is no
existence pre-check; but a beam whose `land_ice_segments` group merely
lacks `segment_id` is read without error. -/
theorem read_beam_absent_beam_error (f : H5File) (gtx : String) (A H Q : Bool)
    (h : lisItems f gtx = none) :
    read_beam f gtx A H Q = none := by
  unfold read_beam
  rw [h]
  rfl

/-- Witness for the amended claim C8 on the empty container. -/
theorem read_beam_absent_beam_error_witness :
    read_beam emptyFile "gt1l" false false false = none :=
  read_beam_absent_beam_error emptyFile "gt1l" false false false rfl

/-! ## Handle close/keep contract (claim C7) -/

/-- Claim C7: each read operation called with `KEEP=True` on an open
handle leaves the handle open and usable for a subsequent read against
the same file; called with `KEEP=False` it closes the handle before
returning, so a subsequent use of that handle fails (for the two
fallible readers, "returning" means returning a result — an exception
propagates before the close statement is reached). -/
theorem keep_semantics (h : Handle) (hop : h.isOpen = true) (A H Q : Bool) (gtx : String) :
    ((find_beamsOp h true).2.isOpen = true ∧
      ((find_beamsOp (find_beamsOp h true).2 false).1).isSome = true) ∧
    ((find_beamsOp h false).2.isOpen = false ∧
      (find_beamsOp (find_beamsOp h false).2 false).1 = none) ∧
    (∀ r, (read_granuleOp h A H Q true).1 = some r →
      (read_granuleOp h A H Q true).2.isOpen = true ∧
      ((find_beamsOp (read_granuleOp h A H Q true).2 false).1).isSome = true) ∧
    (∀ r, (read_granuleOp h A H Q false).1 = some r →
      (read_granuleOp h A H Q false).2.isOpen = false ∧
      (find_beamsOp (read_granuleOp h A H Q false).2 false).1 = none) ∧
    (∀ r, (read_beamOp h gtx A H Q true).1 = some r →
      (read_beamOp h gtx A H Q true).2.isOpen = true ∧
      ((find_beamsOp (read_beamOp h gtx A H Q true).2 false).1).isSome = true) ∧
    (∀ r, (read_beamOp h gtx A H Q false).1 = some r →
      (read_beamOp h gtx A H Q false).2.isOpen = false ∧
      (find_beamsOp (read_beamOp h gtx A H Q false).2 false).1 = none) := by
  refine ⟨⟨?_, ?_⟩, ⟨?_, ?_⟩, ?_, ?_, ?_, ?_⟩
  · simp [find_beamsOp, hop]
  · simp [find_beamsOp, hop]
  · simp [find_beamsOp, hop]
  · simp [find_beamsOp, hop]
  all_goals intro r hr
  · cases hg : read_granule h.file A H Q with
    | none => simp [read_granuleOp, hop, hg] at hr
    | some g => simp [read_granuleOp, find_beamsOp, hop, hg]
  · cases hg : read_granule h.file A H Q with
    | none => simp [read_granuleOp, hop, hg] at hr
    | some g => simp [read_granuleOp, find_beamsOp, hop, hg]
  · cases hb : read_beam h.file gtx A H Q with
    | none => simp [read_beamOp, hop, hb] at hr
    | some b => simp [read_beamOp, find_beamsOp, hop, hb]
  · cases hb : read_beam h.file gtx A H Q with
    | none => simp [read_beamOp, hop, hb] at hr
    | some b => simp [read_beamOp, find_beamsOp, hop, hb]

/-- Witness for claim C7 on an open handle to the sample file. -/
theorem keep_semantics_witness :
    ((find_beamsOp ⟨sampleFile, true⟩ true).2.isOpen = true ∧
      ((find_beamsOp (find_beamsOp ⟨sampleFile, true⟩ true).2 false).1).isSome = true) ∧
    ((read_granuleOp ⟨sampleFile, true⟩ false false false false).2.isOpen = false ∧
      (find_beamsOp (read_granuleOp ⟨sampleFile, true⟩ false false false false).2 false).1 = none) :=
  ⟨(keep_semantics ⟨sampleFile, true⟩ rfl false false false "gt1l").1,
   (keep_semantics ⟨sampleFile, true⟩ rfl false false false "gt1l").2.2.2.1
     sampleGranule (by rfl)⟩

/-! ## Pipeline destructuring of `read_granule` -/

theorem read_granule_struct (f : H5File) (A H Q : Bool) (r : Dict × Dict × List String)
    (hr : read_granule f A H Q = some r) :
    ∃ mds0 ats0 oitems oi qitems qa ad adA laItems li liA,
      beamsLoop f A H Q (find_beams f) [] [] = some (mds0, ats0) ∧
      (f.get "orbit_info").bind groupItems = some oitems ∧
      copyLeaves [] oitems = some oi ∧
      (f.get "quality_assessment").bind groupItems = some qitems ∧
      copyQA [] qitems = some qa ∧
      ancLoop f A ancillary_keys [] [] = some (ad, adA) ∧
      ((f.get "ancillary_data").bind (fun n => n.get "land_ice")).bind groupItems
        = some laItems ∧
      liLoop A laItems [] [] = some (li, liA) ∧
      r.1 = dinsert (dinsert (dinsert mds0 "orbit_info" (PyVal.dict oi))
              "quality_assessment" (PyVal.dict qa)) "ancillary_data"
              (PyVal.dict (dinsert ad "land_ice" (PyVal.dict li))) ∧
      r.2.1 = (if A then
          dinsert (dinsert (globalAttrLoop
              (dinsert ats0 "ancillary_data"
                (PyVal.dict (dinsert adA "land_ice" (PyVal.dict liA))))
              f.fattrs)
            "orbit_info" (PyVal.dict (copyAttrsFlat [] oitems)))
            "quality_assessment" (PyVal.dict (copyAttrsGrouped [] qitems))
        else dinsert ats0 "ancillary_data"
              (PyVal.dict (dinsert adA "land_ice" (PyVal.dict liA)))) ∧
      r.2.2 = find_beams f := by
  unfold read_granule at hr
  cases hbl : beamsLoop f A H Q (find_beams f) [] [] with
  | none => simp [hbl] at hr
  | some p =>
      obtain ⟨mds0, ats0⟩ := p
      simp only [hbl, Option.bind_eq_bind, Option.some_bind] at hr
      cases ho : (f.get "orbit_info").bind groupItems with
      | none => simp [ho] at hr
      | some oitems =>
          simp only [ho, Option.bind_eq_bind, Option.some_bind] at hr
          cases hoi : copyLeaves [] oitems with
          | none => simp [hoi] at hr
          | some oi =>
              simp only [hoi, Option.bind_eq_bind, Option.some_bind] at hr
              cases hq : (f.get "quality_assessment").bind groupItems with
              | none => simp [hq] at hr
              | some qitems =>
                  simp only [hq, Option.bind_eq_bind, Option.some_bind] at hr
                  cases hqa : copyQA [] qitems with
                  | none => simp [hqa] at hr
                  | some qa =>
                      simp only [hqa, Option.bind_eq_bind, Option.some_bind] at hr
                      cases ha : ancLoop f A ancillary_keys [] [] with
                      | none => simp [ha] at hr
                      | some pa =>
                          obtain ⟨ad, adA⟩ := pa
                          simp only [ha, Option.bind_eq_bind, Option.some_bind] at hr
                          cases hla : ((f.get "ancillary_data").bind
                              (fun n => n.get "land_ice")).bind groupItems with
                          | none => simp [hla] at hr
                          | some laItems =>
                              simp only [hla, Option.bind_eq_bind, Option.some_bind] at hr
                              cases hli : liLoop A laItems [] [] with
                              | none => simp [hli] at hr
                              | some pl =>
                                  obtain ⟨li, liA⟩ := pl
                                  simp only [hli, Option.bind_eq_bind,
                                    Option.some_bind, pure] at hr
                                  cases hr
                                  exact ⟨mds0, ats0, oitems, oi, qitems, qa, ad, adA,
                                    laItems, li, liA, rfl, rfl, hoi, rfl, hqa, rfl,
                                    rfl, hli, rfl, rfl, rfl⟩

/-! ## Lemmas about the per-beam loop -/

theorem beamsLoop_preserve (f : H5File) (A H Q : Bool) :
    ∀ bs mds ats out, beamsLoop f A H Q bs mds ats = some out →
      ∀ k, k ∉ bs → dfind out.1 k = dfind mds k ∧ dfind out.2 k = dfind ats k := by
  intro bs
  induction bs with
  | nil =>
      intro mds ats out hout k _
      unfold beamsLoop at hout
      cases hout
      exact ⟨rfl, rfl⟩
  | cons gtx rest ih =>
      intro mds ats out hout k hk
      have hk1 : k ≠ gtx := fun he => hk (he ▸ List.mem_cons_self gtx rest)
      have hk2 : k ∉ rest := fun hm => hk (List.mem_cons_of_mem _ hm)
      unfold beamsLoop at hout
      cases hbd : buildBeamVars f gtx H Q with
      | none => simp [hbd] at hout
      | some bd =>
          simp only [hbd, Option.bind_eq_bind, Option.some_bind] at hout
          cases A with
          | false =>
              simp only [Bool.false_eq_true, if_false, pure, Option.some_bind] at hout
              have := ih _ _ _ hout k hk2
              rw [dfind_dinsert_ne _ _ _ _ (Ne.symm hk1)] at this
              exact this
          | true =>
              simp only [if_true] at hout
              cases hba : buildBeamAttrs f gtx H Q with
              | none => simp [hba] at hout
              | some ba =>
                  simp only [hba, Option.bind_eq_bind, Option.some_bind, pure] at hout
                  have := ih _ _ _ hout k hk2
                  rw [dfind_dinsert_ne _ _ _ _ (Ne.symm hk1),
                    dfind_dinsert_ne _ _ _ _ (Ne.symm hk1)] at this
                  exact this

theorem beamsLoop_find (f : H5File) (A H Q : Bool) :
    ∀ bs mds ats out, beamsLoop f A H Q bs mds ats = some out →
      ∀ gtx, gtx ∈ bs →
        ∃ bd, buildBeamVars f gtx H Q = some bd ∧ dfind out.1 gtx = some (.dict bd) := by
  intro bs
  induction bs with
  | nil => intro _ _ _ _ gtx h; exact absurd h (List.not_mem_nil gtx)
  | cons g1 rest ih =>
      intro mds ats out hout gtx hmem
      unfold beamsLoop at hout
      cases hbd : buildBeamVars f g1 H Q with
      | none => simp [hbd] at hout
      | some bd =>
          simp only [hbd, Option.bind_eq_bind, Option.some_bind] at hout
          have hnext : ∀ ats2, beamsLoop f A H Q rest (dinsert mds g1 (PyVal.dict bd)) ats2
              = some out →
              ∃ bd2, buildBeamVars f gtx H Q = some bd2 ∧
                dfind out.1 gtx = some (.dict bd2) := by
            intro ats2 hout2
            rcases List.mem_cons.mp hmem with he | hm
            · subst he
              by_cases hr : gtx ∈ rest
              · exact ih _ _ _ hout2 gtx hr
              · have := (beamsLoop_preserve f A H Q _ _ _ _ hout2 gtx hr).1
                rw [dfind_dinsert_self] at this
                exact ⟨bd, hbd, this⟩
            · exact ih _ _ _ hout2 gtx hm
          cases A with
          | false =>
              simp only [Bool.false_eq_true, if_false, pure, Option.some_bind] at hout
              exact hnext _ hout
          | true =>
              simp only [if_true] at hout
              cases hba : buildBeamAttrs f g1 H Q with
              | none => simp [hba] at hout
              | some ba =>
                  simp only [hba, Option.bind_eq_bind, Option.some_bind, pure] at hout
                  exact hnext _ hout

theorem beamsLoop_attrs_find (f : H5File) (H Q : Bool) :
    ∀ bs mds ats out, beamsLoop f true H Q bs mds ats = some out →
      ∀ gtx, gtx ∈ bs →
        ∃ ba, buildBeamAttrs f gtx H Q = some ba ∧ dfind out.2 gtx = some (.dict ba) := by
  intro bs
  induction bs with
  | nil => intro _ _ _ _ gtx h; exact absurd h (List.not_mem_nil gtx)
  | cons g1 rest ih =>
      intro mds ats out hout gtx hmem
      unfold beamsLoop at hout
      cases hbd : buildBeamVars f g1 H Q with
      | none => simp [hbd] at hout
      | some bd =>
          simp only [hbd, Option.bind_eq_bind, Option.some_bind, if_true] at hout
          cases hba : buildBeamAttrs f g1 H Q with
          | none => simp [hba] at hout
          | some ba =>
              simp only [hba, Option.bind_eq_bind, Option.some_bind, pure] at hout
              rcases List.mem_cons.mp hmem with he | hm
              · subst he
                by_cases hr : gtx ∈ rest
                · exact ih _ _ _ hout gtx hr
                · have := (beamsLoop_preserve f true H Q _ _ _ _ hout gtx hr).2
                  rw [dfind_dinsert_self] at this
                  exact ⟨ba, hba, this⟩
              · exact ih _ _ _ hout gtx hm

theorem beamsLoop_inv (f : H5File) (A H Q : Bool) :
    ∀ bs mds ats out, beamsLoop f A H Q bs mds ats = some out →
      ∀ k v, dfind out.1 k = some v →
        dfind mds k = some v ∨
        (k ∈ bs ∧ ∃ bd, buildBeamVars f k H Q = some bd ∧ v = .dict bd) := by
  intro bs
  induction bs with
  | nil =>
      intro mds ats out hout k v hk
      unfold beamsLoop at hout
      cases hout
      exact Or.inl hk
  | cons g1 rest ih =>
      intro mds ats out hout k v hk
      unfold beamsLoop at hout
      cases hbd : buildBeamVars f g1 H Q with
      | none => simp [hbd] at hout
      | some bd =>
          simp only [hbd, Option.bind_eq_bind, Option.some_bind] at hout
          have hnext : ∀ ats2, beamsLoop f A H Q rest (dinsert mds g1 (PyVal.dict bd)) ats2
              = some out →
              dfind mds k = some v ∨
              (k ∈ g1 :: rest ∧ ∃ bd2, buildBeamVars f k H Q = some bd2 ∧ v = .dict bd2) := by
            intro ats2 hout2
            rcases ih _ _ _ hout2 k v hk with hfound | ⟨hm, hrest⟩
            · by_cases he : g1 = k
              · subst he
                rw [dfind_dinsert_self] at hfound
                cases hfound
                exact Or.inr ⟨List.mem_cons_self _ _, bd, hbd, rfl⟩
              · rw [dfind_dinsert_ne _ _ _ _ he] at hfound
                exact Or.inl hfound
            · exact Or.inr ⟨List.mem_cons_of_mem _ hm, hrest⟩
          cases A with
          | false =>
              simp only [Bool.false_eq_true, if_false, pure, Option.some_bind] at hout
              exact hnext _ hout
          | true =>
              simp only [if_true] at hout
              cases hba : buildBeamAttrs f g1 H Q with
              | none => simp [hba] at hout
              | some ba =>
                  simp only [hba, Option.bind_eq_bind, Option.some_bind, pure] at hout
                  exact hnext _ hout

theorem beamsLoop_attrs_id (f : H5File) (H Q : Bool) :
    ∀ bs mds ats out, beamsLoop f false H Q bs mds ats = some out → out.2 = ats := by
  intro bs
  induction bs with
  | nil =>
      intro mds ats out hout
      unfold beamsLoop at hout
      cases hout
      rfl
  | cons g1 rest ih =>
      intro mds ats out hout
      unfold beamsLoop at hout
      cases hbd : buildBeamVars f g1 H Q with
      | none => simp [hbd] at hout
      | some bd =>
          simp only [hbd, Option.bind_eq_bind, Option.some_bind, Bool.false_eq_true,
            if_false, pure] at hout
          exact ih _ _ _ hout

/-! ## Refinement between the two readers (claim C2) -/

theorem buildBeamVars_false (f : H5File) (gtx : String) (bd : Dict)
    (h : buildBeamVars f gtx false false = some bd) :
    ∃ litems lis, lisItems f gtx = some litems ∧ copyGrouped initLIS litems = some lis ∧
      bd = [("land_ice_segments", PyVal.dict lis)] := by
  unfold buildBeamVars at h
  cases h1 : lisItems f gtx with
  | none => simp [h1] at h
  | some litems =>
      simp only [h1, Option.bind_eq_bind, Option.some_bind] at h
      cases h2 : copyGrouped initLIS litems with
      | none => simp [h2] at h
      | some lis =>
          simp only [h2, Option.bind_eq_bind, Option.some_bind, Bool.false_eq_true,
            if_false, pure] at h
          cases h
          exact ⟨litems, lis, rfl, h2, rfl⟩

theorem read_beam_false_struct (f : H5File) (gtx : String) (A : Bool) (b : Dict × Dict)
    (h : read_beam f gtx A false false = some b) :
    ∃ litems lis, lisItems f gtx = some litems ∧ copyGrouped initLIS litems = some lis ∧
      b.1 = [(gtx, PyVal.dict [("land_ice_segments", PyVal.dict lis)])] := by
  unfold read_beam at h
  cases h1 : lisItems f gtx with
  | none => simp [h1] at h
  | some litems =>
      simp only [h1, Option.bind_eq_bind, Option.some_bind] at h
      cases h2 : copyGrouped initLIS litems with
      | none => simp [h2] at h
      | some lis =>
          simp only [h2, Option.bind_eq_bind, Option.some_bind] at h
          refine ⟨litems, lis, rfl, h2, ?_⟩
          cases A with
          | false =>
              simp only [Bool.false_eq_true, if_false, pure, Option.some_bind] at h
              cases h
              rfl
          | true =>
              simp only [if_true] at h
              cases h3 : buildBeamAttrs f gtx false false with
              | none => simp [h3] at h
              | some ba =>
                  simp only [h3, Option.bind_eq_bind, Option.some_bind, pure] at h
                  cases h
                  rfl

theorem matchesBeam_ne_special (k : String) (h : matchesBeam k = true) :
    k ≠ "orbit_info" ∧ k ≠ "quality_assessment" ∧ k ≠ "ancillary_data" := by
  refine ⟨?_, ?_, ?_⟩ <;> intro he <;> subst he <;> exact absurd h (by decide)

/-- Claim C2: for any file in which `gtx` is a valid beam and both reads
succeed, the `land_ice_segments` content under `gtx` in `read_beam`'s
variables mapping equals the `gtx` slice of `read_granule`'s variables
mapping (for every one of the beam identifiers, which range over the
valid beams). -/
theorem read_beam_refines_read_granule (f : H5File) (gtx : String)
    (hmem : gtx ∈ find_beams f)
    (hg : (read_granule f false false false).isSome = true)
    (hb : (read_beam f gtx false false false).isSome = true) :
    (read_beam f gtx false false false).bind (fun b => lisOf b.1 gtx) =
      (read_granule f false false false).bind (fun g => lisOf g.1 gtx) ∧
    ((read_beam f gtx false false false).bind (fun b => lisOf b.1 gtx)).isSome = true := by
  obtain ⟨b, hbe⟩ := Option.isSome_iff_exists.mp hb
  obtain ⟨r, hre⟩ := Option.isSome_iff_exists.mp hg
  obtain ⟨litems, lis, hl1, hl2, hb1⟩ := read_beam_false_struct f gtx false b hbe
  obtain ⟨mds0, ats0, oitems, oi, qitems, qa, ad, adA, laItems, li, liA,
    hbl, _, _, _, _, _, _, _, hm1, _, _⟩ := read_granule_struct f false false false r hre
  obtain ⟨bd, hbd, hfind⟩ := beamsLoop_find f false false false _ _ _ _ hbl gtx hmem
  obtain ⟨litems2, lis2, hl3, hl4, hbd1⟩ := buildBeamVars_false f gtx bd hbd
  rw [hl1] at hl3
  cases hl3
  rw [hl2] at hl4
  cases hl4
  obtain ⟨hne1, hne2, hne3⟩ := matchesBeam_ne_special gtx (mem_find_beams_matches f gtx hmem)
  have hrfind : dfind r.1 gtx = some (.dict bd) := by
    rw [hm1, dfind_dinsert_ne _ _ _ _ (Ne.symm hne3), dfind_dinsert_ne _ _ _ _ (Ne.symm hne2),
      dfind_dinsert_ne _ _ _ _ (Ne.symm hne1)]
    exact hfind
  have hbeam : lisOf b.1 gtx = some lis := by
    rw [hb1]
    simp [lisOf, dfind]
  have hgran : lisOf r.1 gtx = some lis := by
    rw [lisOf, hrfind, hbd1]
    simp [dfind]
  rw [hbe, hre]
  simp only [Option.bind_eq_bind, Option.some_bind]
  rw [hbeam, hgran]
  exact ⟨rfl, rfl⟩

/-- Witness for claim C2 on the sample file and beam `gt1l`. -/
theorem read_beam_refines_read_granule_witness :
    ("gt1l" ∈ find_beams sampleFile) ∧
    ((read_beam sampleFile "gt1l" false false false).bind (fun b => lisOf b.1 "gt1l") =
      (read_granule sampleFile false false false).bind (fun g => lisOf g.1 "gt1l")) ∧
    ((read_beam sampleFile "gt1l" false false false).bind
      (fun b => lisOf b.1 "gt1l")).isSome = true :=
  ⟨by decide,
   (read_beam_refines_read_granule sampleFile "gt1l" (by decide) (by rfl) (by rfl)).1,
   (read_beam_refines_read_granule sampleFile "gt1l" (by decide) (by rfl) (by rfl)).2⟩

/-! ## Attribute mapping with capture off (claim C4) -/

theorem ancLoop_attrs_id (f : H5File) :
    ∀ keys ad adA out, ancLoop f false keys ad adA = some out → out.2 = adA := by
  intro keys
  induction keys with
  | nil =>
      intro ad adA out h
      unfold ancLoop at h
      cases h
      rfl
  | cons key rest ih =>
      intro ad adA out h
      unfold ancLoop at h
      cases h1 : ancLookup f key with
      | none => simp [h1] at h
      | some node =>
          simp only [h1, Option.bind_eq_bind, Option.some_bind] at h
          cases h2 : readArr node with
          | none => simp [h2] at h
          | some v =>
              simp only [h2, Option.bind_eq_bind, Option.some_bind, Bool.false_eq_true,
                if_false] at h
              exact ih _ _ _ h

theorem liLoop_attrs_id :
    ∀ items li liA out, liLoop false items li liA = some out → out.2 = liA := by
  intro items
  induction items with
  | nil =>
      intro li liA out h
      unfold liLoop at h
      cases h
      rfl
  | cons p rest ih =>
      intro li liA out h
      obtain ⟨k, n⟩ := p
      unfold liLoop at h
      cases h2 : readArr n with
      | none => simp [h2] at h
      | some v =>
          simp only [h2, Option.bind_eq_bind, Option.some_bind, Bool.false_eq_true,
            if_false] at h
          exact ih _ _ _ h

/-- Claim C4: with `ATTRIBUTES=False` the attributes mapping returned by
`read_granule` has no populated entries: it is exactly the bare
`ancillary_data`/`land_ice` skeleton of empty dictionaries, holding zero
attribute values. -/
theorem granule_attrs_unpopulated (f : H5File) (H Q : Bool) (r : Dict × Dict × List String)
    (hr : read_granule f false H Q = some r) :
    r.2.1 = [("ancillary_data", PyVal.dict [("land_ice", PyVal.dict [])])] ∧
    attrLeafCount (PyVal.dict r.2.1) = 0 := by
  obtain ⟨mds0, ats0, oitems, oi, qitems, qa, ad, adA, laItems, li, liA,
    hbl, _, _, _, _, ha, _, hli, _, ha1, _⟩ := read_granule_struct f false H Q r hr
  have h1 : ats0 = [] := beamsLoop_attrs_id f H Q _ _ _ _ hbl
  have h2 : adA = [] := ancLoop_attrs_id f _ _ _ _ ha
  have h3 : liA = [] := liLoop_attrs_id _ _ _ _ hli
  subst h1 h2 h3
  simp only [Bool.false_eq_true, if_false] at ha1
  rw [ha1]
  exact ⟨rfl, rfl⟩

/-- Witness for claim C4 on the sample file. -/
theorem granule_attrs_unpopulated_witness :
    sampleGranule.2.1 = [("ancillary_data", PyVal.dict [("land_ice", PyVal.dict [])])] ∧
    attrLeafCount (PyVal.dict sampleGranule.2.1) = 0 :=
  granule_attrs_unpopulated sampleFile false false sampleGranule rfl

/-! ## The fixed ancillary keys (claim C10) -/

theorem dfind_eq_none_of_not_mem (d : Dict) (k : String) (h : k ∉ d.map Prod.fst) :
    dfind d k = none := by
  induction d with
  | nil => rfl
  | cons hd tl ih =>
      obtain ⟨k1, w⟩ := hd
      simp only [List.map_cons, List.mem_cons] at h
      push_neg at h
      simp only [dfind]
      rw [if_neg (fun he => h.1 he.symm)]
      exact ih h.2

theorem map_fst_dinsert_new (d : Dict) (k : String) (v : PyVal)
    (h : dfind d k = none) :
    (dinsert d k v).map Prod.fst = d.map Prod.fst ++ [k] := by
  induction d with
  | nil => rfl
  | cons hd tl ih =>
      obtain ⟨k1, w⟩ := hd
      by_cases h1 : k1 = k
      · simp [dfind, h1] at h
      · simp only [dfind, if_neg h1] at h
        simp [dinsert, h1, ih h]

theorem ancLoop_keys (f : H5File) (A : Bool) :
    ∀ keys ad adA out, ancLoop f A keys ad adA = some out →
      (∀ k, k ∈ keys → dfind ad k = none) → nodupB keys = true →
      out.1.map Prod.fst = ad.map Prod.fst ++ keys := by
  intro keys
  induction keys with
  | nil =>
      intro ad adA out h _ _
      unfold ancLoop at h
      cases h
      simp
  | cons key rest ih =>
      intro ad adA out h hfresh hnd
      simp only [nodupB, Bool.and_eq_true, Bool.not_eq_true', decide_eq_false_iff_not] at hnd
      unfold ancLoop at h
      cases h1 : ancLookup f key with
      | none => simp [h1] at h
      | some node =>
          simp only [h1, Option.bind_eq_bind, Option.some_bind] at h
          cases h2 : readArr node with
          | none => simp [h2] at h
          | some v =>
              simp only [h2, Option.bind_eq_bind, Option.some_bind] at h
              have hkey : dfind ad key = none := hfresh key (List.mem_cons_self _ _)
              have hfresh2 : ∀ k, k ∈ rest → dfind (dinsert ad key v) k = none := by
                intro k hk
                have hne : key ≠ k := fun he => hnd.1 (he ▸ hk)
                rw [dfind_dinsert_ne _ _ _ _ hne]
                exact hfresh k (List.mem_cons_of_mem _ hk)
              have := ih _ _ _ h hfresh2 hnd.2
              rw [this, map_fst_dinsert_new _ _ _ hkey, List.append_assoc]
              rfl

theorem ancLoop_some_lookup (f : H5File) (A : Bool) :
    ∀ keys ad adA out, ancLoop f A keys ad adA = some out →
      ∀ k, k ∈ keys → (ancLookup f k).isSome = true := by
  intro keys
  induction keys with
  | nil => intro _ _ _ _ k hk; exact absurd hk (List.not_mem_nil k)
  | cons key rest ih =>
      intro ad adA out h k hk
      unfold ancLoop at h
      cases h1 : ancLookup f key with
      | none => simp [h1] at h
      | some node =>
          simp only [h1, Option.bind_eq_bind, Option.some_bind] at h
          cases h2 : readArr node with
          | none => simp [h2] at h
          | some v =>
              simp only [h2, Option.bind_eq_bind, Option.some_bind] at h
              rcases List.mem_cons.mp hk with he | hm
              · subst he; rw [h1]; rfl
              · exact ih _ _ _ h k hm

/-- Claim C10: every successful `read_granule` call, whatever the option
flags, returns a variables mapping whose `ancillary_data` entry holds
exactly the 21 hard-coded keys (in order) followed by the `land_ice`
subgroup; and the keys are read unconditionally, so a file in which any
one of them is absent makes `read_granule` propagate the absent-field
error. -/
theorem granule_ancillary_fixed (f : H5File) (A H Q : Bool) :
    (∀ r, read_granule f A H Q = some r →
      ancKeysOf r.1 = some (ancillary_keys ++ ["land_ice"])) ∧
    (∀ k, k ∈ ancillary_keys → ancLookup f k = none →
      read_granule f A H Q = none) := by
  constructor
  · intro r hr
    obtain ⟨mds0, ats0, oitems, oi, qitems, qa, ad, adA, laItems, li, liA,
      hbl, _, _, _, _, ha, _, hli, hm1, _, _⟩ := read_granule_struct f A H Q r hr
    have hkeys : ad.map Prod.fst = ancillary_keys := by
      have := ancLoop_keys f A _ _ _ _ ha (fun k _ => rfl) (by decide)
      simpa using this
    have hlifresh : dfind ad "land_ice" = none := by
      apply dfind_eq_none_of_not_mem
      rw [hkeys]
      decide
    unfold ancKeysOf
    rw [hm1, dfind_dinsert_self]
    show some ((dinsert ad "land_ice" (PyVal.dict li)).map Prod.fst) =
      some (ancillary_keys ++ ["land_ice"])
    rw [map_fst_dinsert_new _ _ _ hlifresh, hkeys]
  · intro k hk hmiss
    cases hg : read_granule f A H Q with
    | none => rfl
    | some r =>
        obtain ⟨_, _, _, _, _, _, _, _, _, _, _, _, _, _, _, _, ha, _, _, _, _, _⟩ :=
          read_granule_struct f A H Q r hg
        have := ancLoop_some_lookup f A _ _ _ _ ha k hk
        rw [hmiss] at this
        simp at this

/-- Witness for claim C10: the positive part on the sample file, and the
negative part on the empty container missing the `version` key. -/
theorem granule_ancillary_fixed_witness :
    ancKeysOf sampleGranule.1 = some (ancillary_keys ++ ["land_ice"]) ∧
    ("version" ∈ ancillary_keys ∧ ancLookup emptyFile "version" = none ∧
      read_granule emptyFile false false false = none) :=
  ⟨(granule_ancillary_fixed sampleFile false false false).1 sampleGranule rfl,
   by decide, rfl,
   (granule_ancillary_fixed emptyFile false false false).2 "version" (by decide) rfl⟩

/-! ## The global-attribute quirk (claim C5) -/

theorem globalAttrLoop_stable :
    ∀ l d n, dfind d n = some (.str n) → dfind (globalAttrLoop d l) n = some (.str n) := by
  intro l
  induction l with
  | nil => intro d n h; exact h
  | cons p rest ih =>
      intro d n h
      obtain ⟨n1, v1⟩ := p
      unfold globalAttrLoop
      by_cases hres : n1 ∈ reservedNames
      · rw [if_pos hres]
        exact ih d n h
      · rw [if_neg hres]
        apply ih
        by_cases he : n1 = n
        · subst he
          rw [dfind_dinsert_self]
        · rw [dfind_dinsert_ne _ _ _ _ he]
          exact h

theorem globalAttrLoop_mem :
    ∀ l d n v, (n, v) ∈ l → n ∉ reservedNames →
      dfind (globalAttrLoop d l) n = some (.str n) := by
  intro l
  induction l with
  | nil => intro _ n _ h _; exact absurd h (List.not_mem_nil _)
  | cons p rest ih =>
      intro d n v hmem hres
      obtain ⟨n1, v1⟩ := p
      unfold globalAttrLoop
      rcases List.mem_cons.mp hmem with he | hm
      · cases he
        rw [if_neg hres]
        exact globalAttrLoop_stable rest _ n (dfind_dinsert_self d n (.str n))
      · by_cases h1 : n1 ∈ reservedNames
        · rw [if_pos h1]
          exact ih _ n v hm hres
        · rw [if_neg h1]
          exact ih _ n v hm hres

/-- Counterexample to claim C5 as stated: in a file carrying a global
attribute named `orbit_info` (not reserved), the returned attributes
mapping does not record that attribute with its own name as its value —
the later orbit-attribute stage overwrites the entry with a dictionary. -/
theorem global_attr_quirk_cex :
    (read_granule quirkFile true false false).isSome = true ∧
    ("orbit_info", "some value") ∈ quirkFile.fattrs ∧
    "orbit_info" ∉ reservedNames ∧
    storedAsOwnName ((read_granule quirkFile true false false).getD ([], [], [])).2.1
      "orbit_info" = false := by
  exact ⟨rfl, by decide, by decide, rfl⟩

/-- Claim C5 (amended): with `ATTRIBUTES=True`, every global file-level
attribute whose name is not reserved — and not `orbit_info` or
`quality_assessment`, whose root entries are subsequently overwritten by
the group-attribute stages — is recorded at the root of the attributes
mapping with the attribute's own name stored as its value, rather than
the attribute's actual value. -/
theorem global_attr_name_as_value (f : H5File) (H Q : Bool)
    (r : Dict × Dict × List String) (hr : read_granule f true H Q = some r)
    (n v : String) (hmem : (n, v) ∈ f.fattrs) (h1 : n ∉ reservedNames)
    (h2 : n ≠ "orbit_info") (h3 : n ≠ "quality_assessment") :
    dfind r.2.1 n = some (PyVal.str n) := by
  obtain ⟨mds0, ats0, oitems, oi, qitems, qa, ad, adA, laItems, li, liA,
    _, _, _, _, _, _, _, _, _, ha1, _⟩ := read_granule_struct f true H Q r hr
  simp only [if_true] at ha1
  rw [ha1, dfind_dinsert_ne _ _ _ _ (Ne.symm h3), dfind_dinsert_ne _ _ _ _ (Ne.symm h2)]
  exact globalAttrLoop_mem f.fattrs _ n v hmem h1

/-- Witness for the amended claim C5 on the sample file's `short_name`
global attribute (actual value `ATL06`, recorded value `short_name`). -/
theorem global_attr_name_as_value_witness :
    dfind sampleGranuleA.2.1 "short_name" = some (PyVal.str "short_name") :=
  global_attr_name_as_value sampleFile false false sampleGranuleA rfl
    "short_name" "ATL06" (by decide) (by decide) (by decide) (by decide)

/-! ## The five fixed subgroups (claim C3) -/

theorem subgroupNames_cons (k1 : String) (w : PyVal) (tl : Dict) :
    subgroupNames ((k1, w) :: tl) =
      if w.isDictB then k1 :: subgroupNames tl else subgroupNames tl := by
  unfold subgroupNames
  by_cases h : w.isDictB
  · simp [List.filter_cons, h]
  · simp [List.filter_cons, h]

theorem mem_subgroupNames_of_dfind_dict (d : Dict) (k : String) :
    ∀ w, dfind d k = some w → w.isDictB = true → k ∈ subgroupNames d := by
  induction d with
  | nil => intro w h; simp [dfind] at h
  | cons hd tl ih =>
      intro w h hw
      obtain ⟨k1, w1⟩ := hd
      rw [subgroupNames_cons]
      by_cases h1 : k1 = k
      · subst h1
        simp only [dfind, if_pos] at h
        cases h
        rw [if_pos hw]
        exact List.mem_cons_self _ _
      · simp only [dfind, if_neg h1] at h
        have := ih w h hw
        by_cases h2 : w1.isDictB
        · rw [if_pos h2]; exact List.mem_cons_of_mem _ this
        · rw [if_neg h2]; exact this

theorem subgroupNames_dinsert_nondict (d : Dict) (k : String) (v : PyVal)
    (hv : v.isDictB = false) (hk : k ∉ subgroupNames d) :
    subgroupNames (dinsert d k v) = subgroupNames d := by
  induction d with
  | nil => simp [dinsert, subgroupNames_cons, hv, subgroupNames]
  | cons hd tl ih =>
      obtain ⟨k1, w1⟩ := hd
      rw [subgroupNames_cons] at hk
      by_cases h1 : k1 = k
      · subst h1
        have hw1 : w1.isDictB = false := by
          by_cases h2 : w1.isDictB
          · rw [if_pos h2] at hk
            exact absurd (List.mem_cons_self _ _) hk
          · exact Bool.eq_false_iff.mpr h2
        show subgroupNames (if k1 = k1 then (k1, v) :: tl else (k1, w1) :: dinsert tl k1 v)
          = _
        rw [if_pos rfl]
        rw [subgroupNames_cons, subgroupNames_cons, hv, hw1]
      · show subgroupNames (if k1 = k then (k, v) :: tl else (k1, w1) :: dinsert tl k v)
          = _
        rw [if_neg h1]
        rw [subgroupNames_cons, subgroupNames_cons]
        by_cases h2 : w1.isDictB
        · rw [if_pos h2] at hk ⊢
          rw [if_pos h2]
          have hk2 : k ∉ subgroupNames tl := fun hm => hk (List.mem_cons_of_mem _ hm)
          rw [ih hk2]
        · rw [if_neg h2] at hk ⊢
          rw [if_neg h2]
          exact ih hk

theorem subgroupNames_dinsert_dict (d : Dict) (k : String) (e : List (String × PyVal)) :
    ∀ w, dfind d k = some w → w.isDictB = true →
      subgroupNames (dinsert d k (.dict e)) = subgroupNames d := by
  induction d with
  | nil => intro w h; simp [dfind] at h
  | cons hd tl ih =>
      intro w h hw
      obtain ⟨k1, w1⟩ := hd
      by_cases h1 : k1 = k
      · subst h1
        simp only [dfind, if_pos] at h
        cases h
        show subgroupNames (if k1 = k1 then (k1, PyVal.dict e) :: tl
          else (k1, w) :: dinsert tl k1 (PyVal.dict e)) = _
        rw [if_pos rfl]
        rw [subgroupNames_cons, subgroupNames_cons, hw]
        simp [PyVal.isDictB]
      · simp only [dfind, if_neg h1] at h
        show subgroupNames (if k1 = k then (k, PyVal.dict e) :: tl
          else (k1, w1) :: dinsert tl k (PyVal.dict e)) = _
        rw [if_neg h1]
        rw [subgroupNames_cons, subgroupNames_cons, ih w h hw]

theorem copyGrouped_subgroupNames :
    ∀ litems d out, copyGrouped d litems = some out →
      (∀ p, p ∈ litems → p.1 ∈ fiveNames → p.2.isGroupB = true) →
      subgroupNames d = fiveNames →
      subgroupNames out = fiveNames := by
  intro litems
  induction litems with
  | nil =>
      intro d out h _ hd
      unfold copyGrouped at h
      cases h
      exact hd
  | cons p rest ih =>
      intro d out h hwf hd
      obtain ⟨key, n⟩ := p
      cases n with
      | dataset data a =>
          unfold copyGrouped at h
          have hkey : key ∉ fiveNames := by
            intro hmem
            have := hwf (key, .dataset data a) (List.mem_cons_self _ _) hmem
            simp [H5Node.isGroupB] at this
          have hnot : key ∉ subgroupNames d := hd ▸ hkey
          have hstep : subgroupNames (dinsert d key (.arr data)) = fiveNames := by
            rw [subgroupNames_dinsert_nondict d key (.arr data) rfl hnot]
            exact hd
          exact ih _ _ h (fun q hq => hwf q (List.mem_cons_of_mem _ hq)) hstep
      | group sub a =>
          unfold copyGrouped at h
          cases hk : dfind d key with
          | none => simp only [hk] at h; exact Option.noConfusion h
          | some w =>
              simp only [hk] at h
              cases w with
              | arr l => simp at h
              | str s => simp at h
              | dict inner =>
                  cases hcl : copyLeaves inner sub with
                  | none => simp only [hcl] at h; exact Option.noConfusion h
                  | some inner2 =>
                      simp only [hcl] at h
                      have hstep : subgroupNames (dinsert d key (.dict inner2))
                          = fiveNames := by
                        rw [subgroupNames_dinsert_dict d key inner2 (.dict inner) hk rfl]
                        exact hd
                      exact ih _ _ h (fun q hq => hwf q (List.mem_cons_of_mem _ hq)) hstep

/-- Claim C3: for every well-formed file (one in which no dataset inside
`land_ice_segments` shadows one of the five fixed subgroup names), a
successful `read_granule` with all option flags off gives each discovered
beam an entry holding exactly the key `land_ice_segments` — hence no
`residual_histogram` or `segment_quality` — whose subgroup (nested
dictionary) names are exactly the five fixed ones, in order. -/
theorem granule_fixed_subgroups (f : H5File) (r : Dict × Dict × List String)
    (hr : read_granule f false false false = some r)
    (hwf : ∀ gtx, gtx ∈ r.2.2 → lisWFat f gtx = true)
    (gtx : String) (hmem : gtx ∈ r.2.2) :
    beamRootKeys r.1 gtx = some ["land_ice_segments"] ∧
    Option.map subgroupNames (lisOf r.1 gtx) = some fiveNames := by
  obtain ⟨mds0, ats0, oitems, oi, qitems, qa, ad, adA, laItems, li, liA,
    hbl, _, _, _, _, _, _, _, hm1, _, hb2⟩ := read_granule_struct f false false false r hr
  have hwf2 := hwf gtx hmem
  rw [hb2] at hmem
  obtain ⟨bd, hbd, hfind⟩ := beamsLoop_find f false false false _ _ _ _ hbl gtx hmem
  obtain ⟨litems, lis, hl1, hl2, hbd1⟩ := buildBeamVars_false f gtx bd hbd
  obtain ⟨hne1, hne2, hne3⟩ := matchesBeam_ne_special gtx (mem_find_beams_matches f gtx hmem)
  have hrfind : dfind r.1 gtx = some (.dict bd) := by
    rw [hm1, dfind_dinsert_ne _ _ _ _ (Ne.symm hne3), dfind_dinsert_ne _ _ _ _ (Ne.symm hne2),
      dfind_dinsert_ne _ _ _ _ (Ne.symm hne1)]
    exact hfind
  have hsub : subgroupNames lis = fiveNames := by
    apply copyGrouped_subgroupNames litems initLIS lis hl2 _ (by decide)
    unfold lisWFat at hwf2
    rw [hl1] at hwf2
    intro p hp hmem5
    have := List.all_eq_true.mp hwf2 p hp
    simp only [Bool.or_eq_true, Bool.not_eq_true', decide_eq_false_iff_not] at this
    rcases this with hnot | hgrp
    · exact absurd hmem5 hnot
    · exact hgrp
  constructor
  · rw [beamRootKeys, hrfind, hbd1]
    rfl
  · rw [lisOf, hrfind, hbd1]
    show some (subgroupNames lis) = some fiveNames
    rw [hsub]

/-- Witness for claim C3 on the sample file and beam `gt1l`. -/
theorem granule_fixed_subgroups_witness :
    beamRootKeys sampleGranule.1 "gt1l" = some ["land_ice_segments"] ∧
    Option.map subgroupNames (lisOf sampleGranule.1 "gt1l") = some fiveNames :=
  granule_fixed_subgroups sampleFile sampleGranule rfl (by decide) "gt1l" (by decide)

/-! ## Mirror machinery (claim C6, part one) -/

theorem Mirrors_refl (v : PyVal) : Mirrors v v := fun _ h => h

theorem getPath_nil (v : PyVal) : getPath v [] = some v := by
  cases v <;> rfl

theorem Mirrors_arr (l : List Int) (w : PyVal) : Mirrors (.arr l) w := by
  intro p h
  cases p with
  | nil => rw [getPath_nil]; rfl
  | cons k ps => simp [getPath] at h

theorem REnt_nil (e : Dict) : REnt [] e := by
  intro k v h
  simp [dfind] at h

theorem Mirrors_of_REnt (d e : Dict) (h : REnt d e) : Mirrors (.dict d) (.dict e) := by
  intro p hp
  cases p with
  | nil => rw [getPath_nil]; rfl
  | cons k ps =>
      simp only [getPath] at hp ⊢
      cases hk : dfind d k with
      | none => rw [hk] at hp; simp at hp
      | some v =>
          rw [hk] at hp
          obtain ⟨w, hw, hvw⟩ := h k v hk
          rw [hw]
          exact hvw ps hp

theorem REnt_refl (d : Dict) : REnt d d := by
  intro k v h
  exact ⟨v, h, Mirrors_refl v⟩

theorem REnt_insert (d e : Dict) (k : String) (v w : PyVal)
    (hde : REnt d e) (hvw : Mirrors v w) :
    REnt (dinsert d k v) (dinsert e k w) := by
  intro k1 v1 h1
  by_cases he : k = k1
  · subst he
    rw [dfind_dinsert_self] at h1
    cases h1
    exact ⟨w, dfind_dinsert_self e k w, hvw⟩
  · rw [dfind_dinsert_ne _ _ _ _ he] at h1
    obtain ⟨w1, hw1, hm1⟩ := hde k1 v1 h1
    exact ⟨w1, by rw [dfind_dinsert_ne _ _ _ _ he]; exact hw1, hm1⟩

theorem readArr_arr (n : H5Node) (v : PyVal) (h : readArr n = some v) :
    ∃ l, v = .arr l := by
  cases n with
  | dataset data a =>
      simp only [readArr, Option.some.injEq] at h
      exact ⟨data, h.symm⟩
  | group cs a => simp [readArr] at h

theorem REnt_leaves_child :
    ∀ sub acc base out, REnt acc base → copyLeaves acc sub = some out →
      REnt out (childAttrDicts base sub) := by
  intro sub
  induction sub with
  | nil =>
      intro acc base out hre h
      unfold copyLeaves at h
      cases h
      exact hre
  | cons p rest ih =>
      intro acc base out hre h
      obtain ⟨k, n⟩ := p
      unfold copyLeaves at h
      cases hv : readArr n with
      | none => rw [hv] at h; simp at h
      | some v =>
          rw [hv] at h
          obtain ⟨l, hl⟩ := readArr_arr n v hv
          subst hl
          unfold childAttrDicts
          exact ih _ _ _ (REnt_insert _ _ _ _ _ hre (Mirrors_arr l _)) h

theorem REnt_leaves_flat :
    ∀ items acc base out, REnt acc base → copyLeaves acc items = some out →
      REnt out (copyAttrsFlat base items) := by
  intro items
  induction items with
  | nil =>
      intro acc base out hre h
      unfold copyLeaves at h
      cases h
      exact hre
  | cons p rest ih =>
      intro acc base out hre h
      obtain ⟨k, n⟩ := p
      unfold copyLeaves at h
      cases hv : readArr n with
      | none => rw [hv] at h; simp at h
      | some v =>
          rw [hv] at h
          obtain ⟨l, hl⟩ := readArr_arr n v hv
          subst hl
          unfold copyAttrsFlat
          exact ih _ _ _ (REnt_insert _ _ _ _ _ hre (Mirrors_arr l _)) h

theorem REnt_qa :
    ∀ items acc base out, REnt acc base → copyQA acc items = some out →
      REnt out (copyAttrsGrouped base items) := by
  intro items
  induction items with
  | nil =>
      intro acc base out hre h
      unfold copyQA at h
      cases h
      exact hre
  | cons p rest ih =>
      intro acc base out hre h
      obtain ⟨k, n⟩ := p
      cases n with
      | dataset data a =>
          unfold copyQA at h
          unfold copyAttrsGrouped
          exact ih _ _ _ (REnt_insert _ _ _ _ _ hre (Mirrors_arr data _)) h
      | group sub a =>
          unfold copyQA at h
          cases hcl : copyLeaves [] sub with
          | none => rw [hcl] at h; simp at h
          | some inner =>
              rw [hcl] at h
              unfold copyAttrsGrouped
              have hinner : REnt inner (attrEntry (.group sub a)) := by
                unfold attrEntry
                exact REnt_leaves_child sub [] _ inner (REnt_nil _) hcl
              exact ih _ _ _
                (REnt_insert _ _ _ _ _ hre (Mirrors_of_REnt _ _ hinner)) h

theorem REnt_grouped :
    ∀ litems d L out, copyGrouped d litems = some out → REnt d L →
      nodupB (litems.map Prod.fst) = true →
      (∀ k, k ∈ litems.map Prod.fst →
        dfind d k = none ∨ dfind d k = some (.dict [])) →
      REnt out (copyAttrsGrouped L litems) := by
  intro litems
  induction litems with
  | nil =>
      intro d L out h hre _ _
      unfold copyGrouped at h
      cases h
      exact hre
  | cons p rest ih =>
      intro d L out h hre hnd hfresh
      obtain ⟨key, n⟩ := p
      simp only [List.map_cons, nodupB, Bool.and_eq_true, Bool.not_eq_true',
        decide_eq_false_iff_not] at hnd
      have hfresh2 : ∀ v : PyVal, ∀ k, k ∈ rest.map Prod.fst →
          dfind (dinsert d key v) k = none ∨
          dfind (dinsert d key v) k = some (.dict []) := by
        intro v k hk
        have hne : key ≠ k := fun he => hnd.1 (he ▸ hk)
        rw [dfind_dinsert_ne _ _ _ _ hne]
        exact hfresh k (List.mem_cons_of_mem _ hk)
      cases n with
      | dataset data a =>
          unfold copyGrouped at h
          unfold copyAttrsGrouped
          exact ih _ _ _ h (REnt_insert _ _ _ _ _ hre (Mirrors_arr data _))
            hnd.2 (hfresh2 _)
      | group sub a =>
          unfold copyGrouped at h
          cases hk : dfind d key with
          | none => simp only [hk] at h; exact Option.noConfusion h
          | some w =>
              simp only [hk] at h
              have hw : w = .dict [] := by
                rcases hfresh key (List.mem_cons_self _ _) with hnone | hsome
                · rw [hk] at hnone; exact Option.noConfusion hnone
                · rw [hk] at hsome
                  exact Option.some.inj hsome
              subst hw
              cases hcl : copyLeaves [] sub with
              | none => simp only [hcl] at h; exact Option.noConfusion h
              | some inner2 =>
                  simp only [hcl] at h
                  unfold copyAttrsGrouped
                  have hinner : REnt inner2 (attrEntry (.group sub a)) := by
                    unfold attrEntry
                    exact REnt_leaves_child sub [] _ inner2 (REnt_nil _) hcl
                  exact ih _ _ _ h
                    (REnt_insert _ _ _ _ _ hre (Mirrors_of_REnt _ _ hinner))
                    hnd.2 (hfresh2 _)

theorem REnt_ancLoop (f : H5File) :
    ∀ keys ad adA out, ancLoop f true keys ad adA = some out → REnt ad adA →
      REnt out.1 out.2 := by
  intro keys
  induction keys with
  | nil =>
      intro ad adA out h hre
      unfold ancLoop at h
      cases h
      exact hre
  | cons key rest ih =>
      intro ad adA out h hre
      unfold ancLoop at h
      cases h1 : ancLookup f key with
      | none => simp [h1] at h
      | some node =>
          simp only [h1, Option.bind_eq_bind, Option.some_bind] at h
          cases h2 : readArr node with
          | none => simp [h2] at h
          | some v =>
              simp only [h2, Option.bind_eq_bind, Option.some_bind, if_true] at h
              obtain ⟨l, hl⟩ := readArr_arr node v h2
              subst hl
              exact ih _ _ _ h (REnt_insert _ _ _ _ _ hre (Mirrors_arr l _))

theorem REnt_liLoop :
    ∀ items li liA out, liLoop true items li liA = some out → REnt li liA →
      REnt out.1 out.2 := by
  intro items
  induction items with
  | nil =>
      intro li liA out h hre
      unfold liLoop at h
      cases h
      exact hre
  | cons p rest ih =>
      intro li liA out h hre
      obtain ⟨k, n⟩ := p
      unfold liLoop at h
      cases h2 : readArr n with
      | none => simp [h2] at h
      | some v =>
          simp only [h2, Option.bind_eq_bind, Option.some_bind, if_true] at h
          obtain ⟨l, hl⟩ := readArr_arr n v h2
          subst hl
          exact ih _ _ _ h (REnt_insert _ _ _ _ _ hre (Mirrors_arr l _))

theorem asDict_some (o : Option PyVal) (L : Dict) (h : asDict o = some L) :
    o = some (.dict L) := by
  cases o with
  | none => simp [asDict] at h
  | some v =>
      cases v with
      | arr l => simp [asDict] at h
      | str s => simp [asDict] at h
      | dict e =>
          simp only [asDict, Option.some.injEq] at h
          rw [h]

theorem lisAttrLoop_out :
    ∀ litems g g1, lisAttrLoop g litems = some g1 →
      (∀ k, k ≠ "land_ice_segments" → dfind g1 k = dfind g k) ∧
      (∀ L, asDict (dfind g "land_ice_segments") = some L →
        dfind g1 "land_ice_segments" = some (.dict (copyAttrsGrouped L litems))) ∧
      (litems ≠ [] → ∃ L, asDict (dfind g "land_ice_segments") = some L) := by
  intro litems
  induction litems with
  | nil =>
      intro g g1 h
      unfold lisAttrLoop at h
      cases h
      refine ⟨fun _ _ => rfl, fun L hL => ?_, fun hne => absurd rfl hne⟩
      rw [asDict_some _ _ hL]
      rfl
  | cons p rest ih =>
      intro g g1 h
      obtain ⟨k, n⟩ := p
      unfold lisAttrLoop at h
      cases hcur : asDict (dfind g "land_ice_segments") with
      | none => simp [hcur] at h
      | some cur =>
          simp only [hcur, Option.bind_eq_bind, Option.some_bind] at h
          obtain ⟨iha, ihb, _⟩ := ih _ _ h
          refine ⟨?_, ?_, fun _ => ⟨cur, rfl⟩⟩
          · intro k1 hk1
            rw [iha k1 hk1, dfind_dinsert_ne _ _ _ _ (Ne.symm hk1)]
          · intro L hL
            have hcl : cur = L := Option.some.inj hL
            subst hcl
            have hstep : asDict (dfind (dinsert g "land_ice_segments"
                (PyVal.dict (dinsert cur k (PyVal.dict (attrEntry n)))))
                "land_ice_segments")
                = some (dinsert cur k (PyVal.dict (attrEntry n))) := by
              rw [dfind_dinsert_self]
              rfl
            have := ihb _ hstep
            rw [this]
            rfl

theorem copyAttrs_dict_stable :
    ∀ l d k e, dfind (copyAttrs d l) k = some (.dict e) →
      dfind d k = some (.dict e) := by
  intro l
  induction l with
  | nil => intro d k e h; exact h
  | cons p rest ih =>
      intro d k e h
      obtain ⟨n, v⟩ := p
      unfold copyAttrs at h
      by_cases hres : n ∈ reservedNames
      · rw [if_pos hres] at h
        exact ih _ _ _ h
      · rw [if_neg hres] at h
        have := ih _ _ _ h
        by_cases hne : n = k
        · subst hne
          rw [dfind_dinsert_self] at this
          exact Option.noConfusion this (fun he => PyVal.noConfusion he)
        · rw [dfind_dinsert_ne _ _ _ _ hne] at this
          exact this

theorem dfind_all_empty :
    ∀ d : Dict, (∀ p, p ∈ d → p.2 = PyVal.dict []) → ∀ k,
      dfind d k = none ∨ dfind d k = some (.dict []) := by
  intro d hall k
  cases h : dfind d k with
  | none => exact Or.inl rfl
  | some v =>
      have h2 : v = PyVal.dict [] := hall _ (dfind_mem d k v h)
      rw [h2]
      exact Or.inr rfl

theorem beam_mirror (f : H5File) (gtx : String)
    (hli : hasLandIce f gtx = true) (hnd : beamWF6 f gtx = true)
    (bd ba : Dict)
    (hbd : buildBeamVars f gtx false false = some bd)
    (hba : buildBeamAttrs f gtx false false = some ba) :
    REnt bd ba := by
  obtain ⟨litems, lis, hl1, hl2, hbd1⟩ := buildBeamVars_false f gtx bd hbd
  unfold buildBeamAttrs at hba
  cases hnode : f.get gtx with
  | none => simp [hnode] at hba
  | some node =>
      simp only [hnode, Option.bind_eq_bind, Option.some_bind] at hba
      have hlit : (node.get "land_ice_segments").bind groupItems = some litems := by
        have : lisItems f gtx = (node.get "land_ice_segments").bind groupItems := by
          unfold lisItems
          rw [hnode]
          rfl
        rw [← this]
        exact hl1
      rw [hlit] at hba
      simp only [Option.some_bind] at hba
      cases hloop : lisAttrLoop
          (copyAttrs [("land_ice_segments", PyVal.dict initLIS)] node.atts) litems with
      | none => rw [hloop] at hba; simp at hba
      | some g1 =>
          rw [hloop] at hba
          simp only [Option.some_bind, Bool.false_eq_true, if_false, pure,
            Option.bind_eq_bind] at hba
          cases hba
          obtain ⟨_, ihb, ihc⟩ := lisAttrLoop_out litems _ _ hloop
          have hlitne : litems ≠ [] := by
            obtain ⟨litems2, hl3, hne⟩ := hasLandIce_lisItems f gtx hli
            rw [hl1] at hl3
            cases hl3
            exact hne
          obtain ⟨L, hL⟩ := ihc hlitne
          have hLinit : L = initLIS := by
            have h1 := asDict_some _ _ hL
            have h2 := copyAttrs_dict_stable node.atts _ _ _ h1
            have h3 : dfind [("land_ice_segments", PyVal.dict initLIS)]
                "land_ice_segments" = some (PyVal.dict initLIS) := rfl
            rw [h3] at h2
            cases h2
            rfl
          subst hLinit
          have hfinal := ihb initLIS hL
          have hre : REnt lis (copyAttrsGrouped initLIS litems) := by
            apply REnt_grouped litems initLIS initLIS lis hl2 (REnt_refl _)
            · unfold beamWF6 at hnd
              rw [hl1] at hnd
              exact hnd
            · intro k _
              apply dfind_all_empty
              intro p hp
              simp only [initLIS, List.mem_cons, List.not_mem_nil, or_false] at hp
              rcases hp with h | h | h | h | h <;> (subst h; rfl)
          rw [hbd1]
          intro k v hkv
          by_cases hk : "land_ice_segments" = k
          · subst hk
            simp [dfind] at hkv
            subst hkv
            exact ⟨PyVal.dict (copyAttrsGrouped initLIS litems), hfinal,
              Mirrors_of_REnt _ _ hre⟩
          · simp only [dfind, if_neg hk] at hkv
            exact Option.noConfusion hkv


/-! ## Cleanliness machinery (claim C6, part two) -/

theorem CleanP_arr (l : List Int) : CleanP (.arr l) := by
  intro p n s h
  cases p <;> simp [getPath] at h

theorem CleanP_str (t : String) : CleanP (.str t) := by
  intro p n s h
  cases p <;> simp [getPath] at h

theorem CleanD_nil : CleanD [] := by
  intro k v h
  simp [dfind] at h

theorem CleanP_dict_of (d : Dict) (h : CleanD d) : CleanP (.dict d) := by
  intro p n s hp
  cases p with
  | nil =>
      simp only [List.nil_append, getPath] at hp
      cases hd : dfind d n with
      | none => rw [hd] at hp; exact Option.noConfusion hp
      | some v =>
          rw [hd] at hp
          have hv : v = PyVal.str s := Option.some.inj hp
          subst hv
          exact (h n _ hd).2 s rfl
  | cons k ps =>
      simp only [List.cons_append, getPath] at hp
      cases hd : dfind d k with
      | none => rw [hd] at hp; exact Option.noConfusion hp
      | some v =>
          rw [hd] at hp
          exact (h k v hd).1 ps n s hp

theorem CleanD_of_dict (d : Dict) (h : CleanP (.dict d)) : CleanD d := by
  intro k v hd
  constructor
  · intro ps n s hp
    apply h (k :: ps) n s
    simp only [List.cons_append, getPath, hd]
    exact hp
  · intro s hs
    subst hs
    apply h [] k s
    simp only [List.nil_append, getPath, hd, getPath_nil]

theorem CleanD_insert (d : Dict) (k : String) (v : PyVal)
    (h : CleanD d) (hv : CleanP v)
    (hs : ∀ s, v = PyVal.str s → k ∉ reservedNames) :
    CleanD (dinsert d k v) := by
  intro k1 v1 h1
  by_cases he : k = k1
  · subst he
    rw [dfind_dinsert_self] at h1
    cases h1
    exact ⟨hv, hs⟩
  · rw [dfind_dinsert_ne _ _ _ _ he] at h1
    exact h k1 v1 h1

theorem CleanD_copyAttrs : ∀ l d, CleanD d → CleanD (copyAttrs d l) := by
  intro l
  induction l with
  | nil => intro d h; exact h
  | cons p rest ih =>
      intro d h
      obtain ⟨n, v⟩ := p
      unfold copyAttrs
      by_cases hres : n ∈ reservedNames
      · rw [if_pos hres]
        exact ih d h
      · rw [if_neg hres]
        apply ih
        apply CleanD_insert d n _ h (CleanP_str v)
        intro s hs
        exact hres

theorem CleanD_childAttrDicts : ∀ sub b, CleanD b → CleanD (childAttrDicts b sub) := by
  intro sub
  induction sub with
  | nil => intro b h; exact h
  | cons p rest ih =>
      intro b h
      obtain ⟨k, n⟩ := p
      unfold childAttrDicts
      apply ih
      apply CleanD_insert b k _ h
        (CleanP_dict_of _ (CleanD_copyAttrs n.atts [] CleanD_nil))
      intro s hs
      cases hs

theorem CleanD_attrEntry (n : H5Node) : CleanD (attrEntry n) := by
  cases n with
  | dataset data a => exact CleanD_copyAttrs a [] CleanD_nil
  | group sub a => exact CleanD_childAttrDicts sub _ (CleanD_copyAttrs a [] CleanD_nil)

theorem CleanD_copyAttrsFlat : ∀ items d, CleanD d → CleanD (copyAttrsFlat d items) := by
  intro items
  induction items with
  | nil => intro d h; exact h
  | cons p rest ih =>
      intro d h
      obtain ⟨k, n⟩ := p
      unfold copyAttrsFlat
      apply ih
      apply CleanD_insert d k _ h
        (CleanP_dict_of _ (CleanD_copyAttrs n.atts [] CleanD_nil))
      intro s hs
      cases hs

theorem CleanD_copyAttrsGrouped :
    ∀ items d, CleanD d → CleanD (copyAttrsGrouped d items) := by
  intro items
  induction items with
  | nil => intro d h; exact h
  | cons p rest ih =>
      intro d h
      obtain ⟨k, n⟩ := p
      unfold copyAttrsGrouped
      apply ih
      apply CleanD_insert d k _ h (CleanP_dict_of _ (CleanD_attrEntry n))
      intro s hs
      cases hs

theorem CleanD_initLIS : CleanD initLIS := by
  have hall : ∀ p, p ∈ initLIS → p.2 = PyVal.dict [] := by
    intro p hp
    simp only [initLIS, List.mem_cons, List.not_mem_nil, or_false] at hp
    rcases hp with h1 | h1 | h1 | h1 | h1 <;> (subst h1; rfl)
  intro k v h
  rcases dfind_all_empty initLIS hall k with hnone | hsome
  · rw [h] at hnone
    exact Option.noConfusion hnone
  · rw [h] at hsome
    have hv := Option.some.inj hsome
    subst hv
    exact ⟨CleanP_dict_of [] CleanD_nil, fun s hs => by cases hs⟩

theorem CleanD_lisAttrLoop :
    ∀ litems g g1, lisAttrLoop g litems = some g1 → CleanD g → CleanD g1 := by
  intro litems
  induction litems with
  | nil =>
      intro g g1 h hg
      unfold lisAttrLoop at h
      cases h
      exact hg
  | cons p rest ih =>
      intro g g1 h hg
      obtain ⟨k, n⟩ := p
      unfold lisAttrLoop at h
      cases hcur : asDict (dfind g "land_ice_segments") with
      | none => simp [hcur] at h
      | some cur =>
          simp only [hcur, Option.bind_eq_bind, Option.some_bind] at h
          apply ih _ _ h
          have hcd : CleanD cur := by
            have h1 := asDict_some _ _ hcur
            exact CleanD_of_dict cur (hg "land_ice_segments" _ h1).1
          apply CleanD_insert _ _ _ hg
          · exact CleanP_dict_of _ (CleanD_insert _ _ _ hcd
              (CleanP_dict_of _ (CleanD_attrEntry n)) (fun s hs => by cases hs))
          · intro s hs
            cases hs

theorem CleanD_buildBeamAttrs (f : H5File) (gtx : String) (ba : Dict)
    (h : buildBeamAttrs f gtx false false = some ba) : CleanD ba := by
  unfold buildBeamAttrs at h
  cases hnode : f.get gtx with
  | none => simp [hnode] at h
  | some node =>
      simp only [hnode, Option.bind_eq_bind, Option.some_bind] at h
      cases hlit : (node.get "land_ice_segments").bind groupItems with
      | none => rw [hlit] at h; simp at h
      | some litems =>
          rw [hlit] at h
          simp only [Option.some_bind] at h
          cases hloop : lisAttrLoop
              (copyAttrs [("land_ice_segments", PyVal.dict initLIS)] node.atts) litems with
          | none => rw [hloop] at h; simp at h
          | some g1 =>
              rw [hloop] at h
              simp only [Option.some_bind, Bool.false_eq_true, if_false, pure,
                Option.bind_eq_bind] at h
              cases h
              apply CleanD_lisAttrLoop litems _ _ hloop
              apply CleanD_copyAttrs
              apply CleanD_insert _ _ _ CleanD_nil (CleanP_dict_of _ CleanD_initLIS)
              intro s hs
              cases hs

theorem CleanD_beamsLoop (f : H5File) :
    ∀ bs mds ats out, beamsLoop f true false false bs mds ats = some out →
      CleanD ats → CleanD out.2 := by
  intro bs
  induction bs with
  | nil =>
      intro mds ats out h hc
      unfold beamsLoop at h
      cases h
      exact hc
  | cons gtx rest ih =>
      intro mds ats out h hc
      unfold beamsLoop at h
      cases hbd : buildBeamVars f gtx false false with
      | none => simp [hbd] at h
      | some bd =>
          simp only [hbd, Option.bind_eq_bind, Option.some_bind, if_true] at h
          cases hba : buildBeamAttrs f gtx false false with
          | none => simp [hba] at h
          | some ba =>
              simp only [hba, Option.bind_eq_bind, Option.some_bind, pure] at h
              apply ih _ _ _ h
              apply CleanD_insert _ _ _ hc
                (CleanP_dict_of _ (CleanD_buildBeamAttrs f gtx ba hba))
              intro s hs
              cases hs

theorem CleanD_ancLoop (f : H5File) :
    ∀ keys ad adA out, ancLoop f true keys ad adA = some out →
      CleanD adA → CleanD out.2 := by
  intro keys
  induction keys with
  | nil =>
      intro ad adA out h hc
      unfold ancLoop at h
      cases h
      exact hc
  | cons key rest ih =>
      intro ad adA out h hc
      unfold ancLoop at h
      cases h1 : ancLookup f key with
      | none => simp [h1] at h
      | some node =>
          simp only [h1, Option.bind_eq_bind, Option.some_bind] at h
          cases h2 : readArr node with
          | none => simp [h2] at h
          | some v =>
              simp only [h2, Option.bind_eq_bind, Option.some_bind, if_true] at h
              apply ih _ _ _ h
              apply CleanD_insert _ _ _ hc
                (CleanP_dict_of _ (CleanD_copyAttrs node.atts [] CleanD_nil))
              intro s hs
              cases hs

theorem CleanD_liLoop :
    ∀ items li liA out, liLoop true items li liA = some out →
      CleanD liA → CleanD out.2 := by
  intro items
  induction items with
  | nil =>
      intro li liA out h hc
      unfold liLoop at h
      cases h
      exact hc
  | cons p rest ih =>
      intro li liA out h hc
      obtain ⟨k, n⟩ := p
      unfold liLoop at h
      cases h2 : readArr n with
      | none => simp [h2] at h
      | some v =>
          simp only [h2, Option.bind_eq_bind, Option.some_bind, if_true] at h
          apply ih _ _ _ h
          apply CleanD_insert _ _ _ hc
            (CleanP_dict_of _ (CleanD_copyAttrs n.atts [] CleanD_nil))
          intro s hs
          cases hs

theorem CleanD_globalAttrLoop : ∀ l d, CleanD d → CleanD (globalAttrLoop d l) := by
  intro l
  induction l with
  | nil => intro d h; exact h
  | cons p rest ih =>
      intro d h
      obtain ⟨n, v⟩ := p
      unfold globalAttrLoop
      by_cases hres : n ∈ reservedNames
      · rw [if_pos hres]
        exact ih d h
      · rw [if_neg hres]
        apply ih
        apply CleanD_insert d n _ h (CleanP_str n)
        intro s hs
        exact hres

theorem globalAttrLoop_preserve :
    ∀ l d k, (∀ q, q ∈ l → q.1 ≠ k) → dfind (globalAttrLoop d l) k = dfind d k := by
  intro l
  induction l with
  | nil => intro d k _; rfl
  | cons q rest ih =>
      intro d k hq
      obtain ⟨n, v⟩ := q
      unfold globalAttrLoop
      by_cases hres : n ∈ reservedNames
      · rw [if_pos hres]
        exact ih d k (fun q1 hmem => hq q1 (List.mem_cons_of_mem _ hmem))
      · rw [if_neg hres]
        rw [ih _ k (fun q1 hmem => hq q1 (List.mem_cons_of_mem _ hmem))]
        exact dfind_dinsert_ne _ _ _ _ (hq (n, v) (List.mem_cons_self _ _))

/-- Claim C6: for every well-formed file (no global attribute named like
a beam or like `ancillary_data`, and duplicate-free member names inside
each beam's `land_ice_segments`), a successful `read_granule` with
`ATTRIBUTES=True` produces an attributes mapping whose key structure
mirrors the variables mapping's structure — every group, subgroup and
variable path of the variables mapping exists in the attributes mapping —
and in which no attribute (string-valued) entry at any path bears one of
the reserved names `DIMENSION_LIST`, `CLASS`, `NAME`. -/
theorem granule_attrs_mirror_clean (f : H5File) (r : Dict × Dict × List String)
    (hr : read_granule f true false false = some r)
    (hwfg : globalAttrsWF f = true)
    (hwfb : ∀ gtx, gtx ∈ r.2.2 → beamWF6 f gtx = true) :
    (∀ p, (getPath (PyVal.dict r.1) p).isSome = true →
      (getPath (PyVal.dict r.2.1) p).isSome = true) ∧
    (∀ p n s, getPath (PyVal.dict r.2.1) (p ++ [n]) = some (PyVal.str s) →
      n ∉ reservedNames) := by
  obtain ⟨mds0, ats0, oitems, oi, qitems, qa, ad, adA, laItems, li, liA,
    hbl, _, hoi2, _, hq2, ha, _, hli, hm1, ha1, hb2⟩ :=
    read_granule_struct f true false false r hr
  simp only [if_true] at ha1
  have hgne : ∀ q, q ∈ f.fattrs → matchesBeam q.1 = false ∧ q.1 ≠ "ancillary_data" := by
    intro q hq
    have := List.all_eq_true.mp hwfg q hq
    simp only [Bool.and_eq_true, Bool.not_eq_true', decide_eq_false_iff_not] at this
    exact this
  have hREnt : REnt r.1 r.2.1 := by
    rw [hm1, ha1]
    intro k v hkv
    by_cases hka : k = "ancillary_data"
    · subst hka
      rw [dfind_dinsert_self] at hkv
      cases hkv
      refine ⟨PyVal.dict (dinsert adA "land_ice" (PyVal.dict liA)), ?_, ?_⟩
      · rw [dfind_dinsert_ne _ _ _ _
            (by decide : "quality_assessment" ≠ "ancillary_data"),
          dfind_dinsert_ne _ _ _ _ (by decide : "orbit_info" ≠ "ancillary_data"),
          globalAttrLoop_preserve f.fattrs _ _ (fun q hq => (hgne q hq).2)]
        exact dfind_dinsert_self _ _ _
      · exact Mirrors_of_REnt _ _ (REnt_insert _ _ _ _ _
          (REnt_ancLoop f ancillary_keys [] [] (ad, adA) ha (REnt_nil []))
          (Mirrors_of_REnt _ _ (REnt_liLoop laItems [] [] (li, liA) hli (REnt_nil []))))
    · rw [dfind_dinsert_ne _ _ _ _ (fun he => hka he.symm)] at hkv
      by_cases hkq : k = "quality_assessment"
      · subst hkq
        rw [dfind_dinsert_self] at hkv
        cases hkv
        refine ⟨PyVal.dict (copyAttrsGrouped [] qitems), dfind_dinsert_self _ _ _, ?_⟩
        exact Mirrors_of_REnt _ _ (REnt_qa qitems [] [] qa (REnt_nil []) hq2)
      · rw [dfind_dinsert_ne _ _ _ _ (fun he => hkq he.symm)] at hkv
        by_cases hko : k = "orbit_info"
        · subst hko
          rw [dfind_dinsert_self] at hkv
          cases hkv
          refine ⟨PyVal.dict (copyAttrsFlat [] oitems), ?_, ?_⟩
          · rw [dfind_dinsert_ne _ _ _ _
                (by decide : "quality_assessment" ≠ "orbit_info")]
            exact dfind_dinsert_self _ _ _
          · exact Mirrors_of_REnt _ _ (REnt_leaves_flat oitems [] [] oi (REnt_nil []) hoi2)
        · rw [dfind_dinsert_ne _ _ _ _ (fun he => hko he.symm)] at hkv
          rcases beamsLoop_inv f true false false _ _ _ _ hbl k v hkv with hnone | hbeam
          · simp [dfind] at hnone
          · obtain ⟨hmemk, bd, hbd, hv⟩ := hbeam
            subst hv
            have hmb := mem_find_beams_matches f k hmemk
            obtain ⟨ba, hban, hfind2⟩ :=
              beamsLoop_attrs_find f false false _ _ _ _ hbl k hmemk
            refine ⟨PyVal.dict ba, ?_, ?_⟩
            · rw [dfind_dinsert_ne _ _ _ _ (fun he => hkq he.symm),
                dfind_dinsert_ne _ _ _ _ (fun he => hko he.symm),
                globalAttrLoop_preserve f.fattrs _ _
                  (fun q hq he => by
                    have := (hgne q hq).1
                    rw [he, hmb] at this
                    exact Bool.noConfusion this),
                dfind_dinsert_ne _ _ _ _ (fun he => hka he.symm)]
              exact hfind2
            · exact Mirrors_of_REnt _ _
                (beam_mirror f k (mem_find_beams_hasLandIce f k hmemk)
                  (hwfb k (hb2 ▸ hmemk)) bd ba hbd hban)
  have hclean : CleanD r.2.1 := by
    rw [ha1]
    apply CleanD_insert
    · apply CleanD_insert
      · apply CleanD_globalAttrLoop
        apply CleanD_insert
        · exact CleanD_beamsLoop f _ _ _ _ hbl CleanD_nil
        · apply CleanP_dict_of
          apply CleanD_insert
          · exact CleanD_ancLoop f _ _ _ _ ha CleanD_nil
          · exact CleanP_dict_of _ (CleanD_liLoop _ _ _ _ hli CleanD_nil)
          · intro s hs; cases hs
        · intro s hs; cases hs
      · exact CleanP_dict_of _ (CleanD_copyAttrsFlat oitems [] CleanD_nil)
      · intro s hs; cases hs
    · exact CleanP_dict_of _ (CleanD_copyAttrsGrouped qitems [] CleanD_nil)
    · intro s hs; cases hs
  refine ⟨?_, ?_⟩
  · exact Mirrors_of_REnt _ _ hREnt
  · intro p n s hp
    exact CleanP_dict_of _ hclean p n s hp

/-- Witness for claim C6 on the sample file: a representative variable
path present in the attributes mapping. -/
theorem granule_attrs_mirror_clean_witness :
    (getPath (PyVal.dict sampleGranuleA.2.1)
      ["gt1l", "land_ice_segments", "dem", "dem_h"]).isSome = true :=
  (granule_attrs_mirror_clean sampleFile sampleGranuleA rfl (by decide) (by decide)).1
    ["gt1l", "land_ice_segments", "dem", "dem_h"] (by decide)


end ATL06
